import Mathlib

/-!
Shallow embedding of the gradescope-rubric-analytics core
(`src/gradescope_analytics/{mapping,invariants,metrics,concepts,recommendations}.py`
and `app/app.py`) together with proofs about the specified properties.

Tables are modelled as column-name lists plus rows of cell functions; cell
values are dynamically typed (`Val`), numbers are exact rationals, and
`pandas.to_numeric(errors="coerce")` becomes an `Option Rat` parser.
Exceptions become `Except String`.
-/

set_option allowUnsafeReducibility true
attribute [local semireducible] Rat.add Rat.mul Rat.div Rat.inv Rat.sub Rat.neg

/-- Dynamically typed cell value of a dataframe (string, number, or NaN). -/
inductive Val where
  | str (s : String)
  | num (q : Rat)
  | na
deriving DecidableEq, Repr

/-- A pandas dataframe: a list of column names and rows mapping column names
to cell values (only columns listed in `cols` are ever read). -/
structure PFrame where
  cols : List String
  rows : List (String → Val)

/-- A canonical normalized row (output of the mapper). -/
structure Row where
  student_id : String
  exam_id : String
  question_id : String
  rubric_item : String
  points_lost : Rat
  topic : String
  section_id : String
  ta_id : String
deriving DecidableEq, Repr

/-- First-occurrence deduplication with an accumulator of already-seen
elements. -/
def dedupAux {α : Type} [DecidableEq α] (seen : List α) : List α → List α
  | [] => []
  | x :: xs => if x ∈ seen then dedupAux seen xs else x :: dedupAux (x :: seen) xs

/-- Keep the first occurrence of every element, dropping later duplicates
(models `pandas.unique` and Python dict key order). -/
def dedupFirst {α : Type} [DecidableEq α] (l : List α) : List α :=
  dedupAux [] l

/-- Lexicographic code-point comparison of character lists (the ordering
Python uses on strings). -/
def lexLe : List Char → List Char → Bool
  | [], _ => true
  | _ :: _, [] => false
  | c :: cs, d :: ds =>
    if c.toNat < d.toNat then true
    else if d.toNat < c.toNat then false
    else lexLe cs ds

/-- Lexicographic comparison of strings. -/
def strLe (a b : String) : Bool := lexLe a.data b.data

/-- Insert a string into a sorted list of strings, keeping it sorted. -/
def insertStr (x : String) : List String → List String
  | [] => [x]
  | y :: ys => if strLe x y then x :: y :: ys else y :: insertStr x ys

/-- Sort a list of strings lexicographically (models Python `sorted` /
pandas groupby key order on string keys). -/
def sortStr : List String → List String
  | [] => []
  | x :: xs => insertStr x (sortStr xs)

/-- All unordered pairs of a list in `itertools.combinations(l, 2)` order. -/
def pairsOf {α : Type} : List α → List (α × α)
  | [] => []
  | x :: xs => xs.map (fun y => (x, y)) ++ pairsOf xs

/-- Whitespace test used by the `str.strip` model. -/
def isWS (c : Char) : Bool := c.isWhitespace

/-- Strip leading and trailing whitespace from a character list. -/
def stripChars (l : List Char) : List Char :=
  List.rdropWhile isWS (l.dropWhile isWS)

/-- Python `str.strip()` on a string. -/
def pstrip (s : String) : String := String.mk (stripChars s.data)

/-- Whitespace-run collapsing; the flag records whether the previous
character was whitespace (inside a run nothing more is emitted). -/
def collapseAux : Bool → List Char → List Char
  | _, [] => []
  | inRun, c :: cs =>
    if isWS c then
      if inRun then collapseAux true cs else ' ' :: collapseAux true cs
    else c :: collapseAux false cs

/-- Collapse every run of whitespace into a single space
(models `str.replace(r"\s+", " ", regex=True)`). -/
def collapseChars (l : List Char) : List Char := collapseAux false l

/-- Whitespace-run collapsing on strings. -/
def collapseWS (s : String) : String := String.mk (collapseChars s.data)

/-- Numeric value of a digit list (most significant first). -/
def digitsVal (l : List Char) : Nat :=
  l.foldl (fun a c => a * 10 + (c.toNat - ('0').toNat)) 0

/-- Decimal number parser: optional sign, integer part, optional fractional
part.  Models `pandas.to_numeric(errors="coerce")` on the string inputs the
pipeline deals with (`none` = coercion failure = NaN). -/
def parseNum (s : String) : Option Rat :=
  let t := (pstrip s).data
  let signed : Int × List Char :=
    match t with
    | '-' :: rest => (-1, rest)
    | '+' :: rest => (1, rest)
    | _ => (1, t)
  let ip := signed.2.takeWhile (fun c => c ≠ '.')
  let rest := signed.2.dropWhile (fun c => c ≠ '.')
  match rest with
  | [] =>
    if ip ≠ [] ∧ ip.all Char.isDigit then
      some (signed.1 * (digitsVal ip : Rat))
    else none
  | '.' :: fp =>
    if (ip ++ fp) ≠ [] ∧ (ip ++ fp).all Char.isDigit then
      some (signed.1 * ((digitsVal ip : Rat) + (digitsVal fp : Rat) / (10 : Rat) ^ fp.length))
    else none
  | _ => none

/-- Python `str(value)` on a cell (NaN prints as "nan", as in pandas). -/
def valToStr : Val → String
  | .str s => s
  | .num q => toString q
  | .na => "nan"

/-- `pandas.to_numeric(errors="coerce")` on a cell. -/
def toNum : Val → Option Rat
  | .str s => parseNum s
  | .num q => some q
  | .na => none

/-- `fillna("")` on a cell. -/
def fillnaStr : Val → Val
  | .na => .str ""
  | v => v

/-! ## mapping.py -/

def CANONICAL_COLUMNS : List String :=
  ["student_id", "exam_id", "question_id", "rubric_item", "points_lost",
   "topic", "section_id", "ta_id"]

def REQUIRED_CANONICAL : List String :=
  ["student_id", "exam_id", "question_id", "rubric_item", "points_lost"]

/-- `MappingConfig`: which source column feeds each canonical field. -/
structure MappingConfig where
  student_id : String
  exam_id : String
  question_id : String
  rubric_item : String
  points_lost : String
  topic : Option String := none
  section_id : Option String := none
  ta_id : Option String := none
deriving DecidableEq, Repr

/-- `dict.get(key)` on a `Dict[str, Optional[str]]`: `none` for an absent key
or a stored `None`. -/
def mget (m : List (String × Option String)) (k : String) : Option String :=
  (m.reverse.find? (fun p => p.1 = k)).bind Prod.snd

/-- Python falsiness of `mapping.get(key)`: absent, `None`, or `""`. -/
def mgetFalsy (m : List (String × Option String)) (k : String) : Bool :=
  match mget m k with
  | none => true
  | some s => s = ""

/-- `MappingConfig.from_dict`: raises on the first required key whose value
is falsy (absent, `None`, or empty). -/
def MappingConfig.from_dict (m : List (String × Option String)) :
    Except String MappingConfig :=
  match REQUIRED_CANONICAL.find? (fun k => mgetFalsy m k) with
  | some k => .error ("Missing required mapping for " ++ k)
  | none =>
    .ok
      { student_id := (mget m "student_id").getD ""
        exam_id := (mget m "exam_id").getD ""
        question_id := (mget m "question_id").getD ""
        rubric_item := (mget m "rubric_item").getD ""
        points_lost := (mget m "points_lost").getD ""
        topic := mget m "topic"
        section_id := mget m "section_id"
        ta_id := mget m "ta_id" }

/-- `MappingConfig.to_dict().values()` restricted to truthy entries, in
field-declaration order (used by the missing-source-column check). -/
def declaredSources (m : MappingConfig) : List String :=
  ([m.student_id, m.exam_id, m.question_id, m.rubric_item, m.points_lost].filter
      (fun s => s ≠ "")) ++
    (([m.topic, m.section_id, m.ta_id].filterMap id).filter (fun s => s ≠ ""))

/-- Read a cell of `df_copy` after the optional columns were defaulted:
columns absent from the source read as the empty string. -/
def cellOr (df : PFrame) (r : String → Val) (c : String) : Val :=
  if c ∈ df.cols then r c else Val.str ""

/-- One identifier column of `ensure_canonical_columns`:
`astype(str).str.strip()`. -/
def idColVals (df : PFrame) (c : String) : List String :=
  df.rows.map (fun r => pstrip (valToStr (cellOr df r c)))

/-- One optional column of `ensure_canonical_columns`:
`fillna("").astype(str).str.strip()`. -/
def optColVals (df : PFrame) (c : String) : List String :=
  df.rows.map (fun r => pstrip (valToStr (fillnaStr (cellOr df r c))))

/-- The coerced `points_lost` column of `ensure_canonical_columns`. -/
def ptsVals (df : PFrame) : List (Option Rat) :=
  df.rows.map (fun r => toNum (cellOr df r "points_lost"))

/-- Negative-number test used on a coerced cell (`NaN < 0` is false). -/
def ptsNeg : Option Rat → Bool
  | some q => q < 0
  | none => false

/-- The normalized row produced for a source row once every check of
`ensure_canonical_columns` has passed. -/
def ensuredRow (df : PFrame) (r : String → Val) : Row :=
  { student_id := pstrip (valToStr (cellOr df r "student_id"))
    exam_id := pstrip (valToStr (cellOr df r "exam_id"))
    question_id := pstrip (valToStr (cellOr df r "question_id"))
    rubric_item := pstrip (valToStr (cellOr df r "rubric_item"))
    points_lost := (toNum (cellOr df r "points_lost")).getD 0
    topic := pstrip (valToStr (fillnaStr (cellOr df r "topic")))
    section_id := pstrip (valToStr (fillnaStr (cellOr df r "section_id")))
    ta_id := pstrip (valToStr (fillnaStr (cellOr df r "ta_id"))) }

/-- Raise `msg` when the offending condition holds, as a monadic guard. -/
def guardE (b : Bool) (msg : String) : Except String Unit :=
  if b then .error msg else .ok ()

/-- `ensure_canonical_columns`: validate and normalize a declared-canonical
table, failing on missing required columns, blank identifiers after trimming,
or non-numeric / negative `points_lost` (checks in source order). -/
def ensure_canonical_columns (df : PFrame) : Except String (List Row) := do
  guardE (REQUIRED_CANONICAL.filter (fun c => c ∉ df.cols) ≠ [])
    ("Dataframe missing required columns: " ++
      String.intercalate ", " (REQUIRED_CANONICAL.filter (fun c => c ∉ df.cols)))
  guardE ((idColVals df "student_id").any (fun s => s = ""))
    "Missing required values in student_id"
  guardE ((idColVals df "exam_id").any (fun s => s = ""))
    "Missing required values in exam_id"
  guardE ((idColVals df "question_id").any (fun s => s = ""))
    "Missing required values in question_id"
  guardE ((idColVals df "rubric_item").any (fun s => s = ""))
    "Missing required values in rubric_item"
  guardE ((ptsVals df).any Option.isNone)
    "points_lost column contains non-numeric values"
  guardE ((ptsVals df).any ptsNeg)
    "points_lost must be non-negative"
  pure (df.rows.map (ensuredRow df))

/-- Re-inject a normalized row as a dataframe row (the identity embedding of
the canonical 8-column table back into the dynamic table type). -/
def rowCells (r : Row) : String → Val := fun c =>
  if c = "student_id" then .str r.student_id
  else if c = "exam_id" then .str r.exam_id
  else if c = "question_id" then .str r.question_id
  else if c = "rubric_item" then .str r.rubric_item
  else if c = "points_lost" then .num r.points_lost
  else if c = "topic" then .str r.topic
  else if c = "section_id" then .str r.section_id
  else if c = "ta_id" then .str r.ta_id
  else .na

/-- A normalized table viewed again as a dataframe. -/
def framePF (rows : List Row) : PFrame :=
  { cols := CANONICAL_COLUMNS, rows := rows.map rowCells }

/-- The topic/section/ta value of a mapped row: the declared source column
when it is truthy and present, otherwise the empty-string default. -/
def optMapped (df : PFrame) (o : Option String) (r : String → Val) : String :=
  match o with
  | some c => if c ≠ "" ∧ c ∈ df.cols then pstrip (valToStr (r c)) else ""
  | none => ""

/-- The normalized row `apply_mapping` builds for one source row. -/
def mappedRow (df : PFrame) (m : MappingConfig) (r : String → Val) : Row :=
  { student_id := pstrip (valToStr (r m.student_id))
    exam_id := pstrip (valToStr (r m.exam_id))
    question_id := pstrip (valToStr (r m.question_id))
    rubric_item := collapseWS (pstrip (valToStr (r m.rubric_item)))
    points_lost := (toNum (r m.points_lost)).getD 0
    topic := optMapped df m.topic r
    section_id := optMapped df m.section_id r
    ta_id := optMapped df m.ta_id r }

/-- `apply_mapping`: normalize an arbitrary table through a `MappingConfig`,
failing on missing declared source columns, non-numeric or negative
`points_lost`, or blank required fields. -/
def apply_mapping (df : PFrame) (m : MappingConfig) : Except String (List Row) := do
  guardE ((declaredSources m).filter (fun c => c ∉ df.cols) ≠ [])
    ("Source columns not found: " ++
      String.intercalate ", " ((declaredSources m).filter (fun c => c ∉ df.cols)))
  guardE (m.student_id ∉ df.cols) ("KeyError: " ++ m.student_id)
  guardE (m.exam_id ∉ df.cols) ("KeyError: " ++ m.exam_id)
  guardE (m.question_id ∉ df.cols) ("KeyError: " ++ m.question_id)
  guardE (m.rubric_item ∉ df.cols) ("KeyError: " ++ m.rubric_item)
  guardE (m.points_lost ∉ df.cols) ("KeyError: " ++ m.points_lost)
  guardE ((df.rows.map (fun r => toNum (r m.points_lost))).any Option.isNone)
    "points_lost column contains non-numeric values"
  guardE ((df.rows.map (fun r => toNum (r m.points_lost))).any ptsNeg)
    "points_lost must be non-negative"
  guardE ((df.rows.map (fun r => pstrip (valToStr (r m.student_id)))).any
      (fun s => s = ""))
    "Missing required values in student_id"
  guardE ((df.rows.map (fun r => pstrip (valToStr (r m.exam_id)))).any
      (fun s => s = ""))
    "Missing required values in exam_id"
  guardE ((df.rows.map (fun r => pstrip (valToStr (r m.question_id)))).any
      (fun s => s = ""))
    "Missing required values in question_id"
  guardE ((df.rows.map (fun r => collapseWS (pstrip (valToStr (r m.rubric_item))))).any
      (fun s => s = ""))
    "Missing required values in rubric_item"
  guardE ((df.rows.map (fun r => toString ((toNum (r m.points_lost)).getD 0))).any
      (fun s => s = ""))
    "Missing required values in points_lost"
  ensure_canonical_columns (framePF (df.rows.map (mappedRow df m)))

/-! ## metrics.py -/

/-- `{exam: idx for idx, exam in enumerate(order_list)}` looked up with
default `-1` (a duplicated exam keeps its last index, as a dict does). -/
def examRank (l : List String) (x : String) : Int :=
  l.enum.foldl (fun acc p => if p.2 = x then (p.1 : Int) else acc) (-1)

/-- The effective exam ordering of `compute_persistence`: the supplied order
filtered to observed exams when that filter is non-empty, otherwise the
sorted observed exams (a supplied `None` or empty order also falls back). -/
def effOrder (rows : List Row) (exam_order : Option (List String)) : List String :=
  let exams_seen := dedupFirst (rows.map (fun r => r.exam_id))
  match exam_order with
  | some l =>
    if l = [] then sortStr exams_seen
    else
      let order_list := l.filter (fun e => e ∈ exams_seen)
      if order_list = [] then sortStr exams_seen else order_list
  | none => sortStr exams_seen

/-- One output record of `compute_persistence`. -/
structure PRow where
  rubric_item : String
  cohort_size : Nat
  repeated : Nat
  persistence_rate : Rat
deriving DecidableEq, Repr

/-- The per-rubric-item persistence record for a fixed ordering. -/
def persistRecord (rows : List Row) (order_list : List String) (first_exam : String)
    (item : String) : PRow :=
  let subset := rows.filter (fun r => r.rubric_item = item)
  let cohortL := dedupFirst ((subset.filter (fun r => r.exam_id = first_exam)).map
    (fun r => r.student_id))
  let laterSub :=
    if order_list.drop 1 ≠ [] then
      subset.filter (fun r => examRank order_list r.exam_id > 0)
    else []
  let repeatedL := (dedupFirst (laterSub.map (fun r => r.student_id))).filter
    (fun s => s ∈ cohortL)
  { rubric_item := item
    cohort_size := cohortL.length
    repeated := repeatedL.length
    persistence_rate :=
      if cohortL.length = 0 then 0 else (repeatedL.length : Rat) / (cohortL.length : Rat) }

/-- The core of `compute_persistence` on an already-normalized table. -/
def persistCore (rows : List Row) (exam_order : Option (List String)) : List PRow :=
  let order_list := effOrder rows exam_order
  match order_list with
  | [] => []
  | first_exam :: _ =>
    (sortStr (dedupFirst (rows.map (fun r => r.rubric_item)))).map
      (persistRecord rows order_list first_exam)

/-- `compute_persistence`: normalize, then compute per-rubric-item cohort
persistence across the exam ordering. -/
def compute_persistence (df : PFrame) (exam_order : Option (List String)) :
    Except String (List PRow) :=
  (ensure_canonical_columns df).map (fun rows => persistCore rows exam_order)

/-! ## invariants.py -/

/-- The column set `invariants.py` actually validates against (a
gradescope-export schema, not the canonical one). -/
def REQUIRED_COLUMNS : List String :=
  ["student_id", "student_name", "assignment", "rubric_item", "category",
   "score", "max_score", "comment"]

/-- Detail payload of a check result: a message or an offending-row count. -/
inductive Detail where
  | strD (s : String)
  | natD (n : Nat)
deriving DecidableEq, Repr

/-- One invariant-check result. -/
structure CheckResult where
  name : String
  ok : Bool
  detail : Detail
deriving DecidableEq, Repr

/-- Column access `df[c]`: raises `KeyError` when the column is absent. -/
def colE (df : PFrame) (c : String) : Except String (List Val) :=
  if c ∈ df.cols then .ok (df.rows.map (fun r => r c)) else .error ("KeyError: " ++ c)

/-- `check_required_columns`: presence flags for `REQUIRED_COLUMNS`. -/
def check_required_columns (df : PFrame) : List (String × Bool) :=
  REQUIRED_COLUMNS.map (fun c => (c, c ∈ df.cols))

/-- `check_missing_identifiers`: rows whose `student_id` or `rubric_item`
is blank after trimming. -/
def check_missing_identifiers (df : PFrame) : Except String Nat := do
  let ids ← colE df "student_id"
  let items ← colE df "rubric_item"
  pure ((List.zip ids items).countP (fun p =>
    decide (pstrip (valToStr p.1) = "") || decide (pstrip (valToStr p.2) = "")))

/-- `check_numeric_scores`: rows whose `score` fails numeric coercion. -/
def check_numeric_scores (df : PFrame) : Except String Nat := do
  let scores ← colE df "score"
  pure ((scores.map toNum).countP Option.isNone)

/-- `check_score_ranges`: rows with a negative `score`/`max_score` or a
`score` above a present `max_score` (NaN comparisons are false). -/
def check_score_ranges (df : PFrame) : Except String Nat := do
  let scores ← colE df "score"
  let maxes ← colE df "max_score"
  pure ((List.zip (scores.map toNum) (maxes.map toNum)).countP (fun p =>
    ptsNeg p.1 || ptsNeg p.2 ||
      (match p.1, p.2 with
       | some s, some m => decide (s > m)
       | _, _ => false)))

/-- `run_invariants`: the four checks, in order; a missing column accessed by
a check propagates as an exception. -/
def run_invariants (df : PFrame) : Except String (List CheckResult) := do
  let required := check_required_columns df
  let missing_required := (required.filter (fun p => !p.2)).map Prod.fst
  let first : CheckResult :=
    { name := "required_columns"
      ok := missing_required.length = 0
      detail := .strD (if missing_required ≠ [] then
          String.intercalate ", " missing_required else "all present") }
  let missing_ids ← check_missing_identifiers df
  let non_numeric ← check_numeric_scores df
  let out_of_range ← check_score_ranges df
  pure [first,
    { name := "missing_identifiers", ok := missing_ids = 0, detail := .natD missing_ids },
    { name := "non_numeric_scores", ok := non_numeric = 0, detail := .natD non_numeric },
    { name := "score_range_violations", ok := out_of_range = 0,
      detail := .natD out_of_range }]

/-! ## concepts.py -/

def PLACEHOLDER_VALUES : List String :=
  ["", "none", "null", "nil", "n/a", "na", "yes", "true", "false"]

/-- `_clean_str`: stringify and trim. -/
def cleanStr (s : String) : String := pstrip s

/-- `str.lower()` (character-wise, which covers the ASCII placeholder
tokens this module compares against). -/
def plower (s : String) : String := String.mk (s.data.map Char.toLower)

/-- `_is_valid_concept`: non-blank and not a placeholder token. -/
def isValidConcept (v : String) : Bool :=
  plower v ∉ PLACEHOLDER_VALUES ∧ v ≠ ""

/-- Python dict assignment `d[k] = v` on an insertion-ordered association
list: overwrite in place or append. -/
def dinsert (l : List (String × String)) (k v : String) : List (String × String) :=
  if l.any (fun p => p.1 = k) then
    l.map (fun p => if p.1 = k then (k, v) else p)
  else l ++ [(k, v)]

/-- One entry of `normalize_mapping`: route the trimmed pair into the
cleaned or the invalid dict. -/
def normStep (acc : List (String × String) × List (String × String))
    (kv : String × String) : List (String × String) × List (String × String) :=
  let key := cleanStr kv.1
  let val := cleanStr kv.2
  if key = "" then (acc.1, dinsert acc.2 kv.1 kv.2)
  else if isValidConcept val then (dinsert acc.1 key val, acc.2)
  else (acc.1, dinsert acc.2 key val)

/-- `normalize_mapping`: split a mapping into (cleaned, invalid) dicts. -/
def normalize_mapping (m : List (String × String)) :
    List (String × String) × List (String × String) :=
  m.foldl normStep ([], [])

/-- The persisted concept-mapping file: absent, or a flat string dict (the
JSON object is abstracted as its parsed, insertion-ordered content). -/
def ConceptFile : Type := Option (List (String × String))

/-- `load_concept_mapping`: empty for an absent file, otherwise the cleaned
half of normalization (placeholder entries silently dropped). -/
def load_concept_mapping (fs : ConceptFile) : List (String × String) :=
  match fs with
  | none => []
  | some raw => (normalize_mapping raw).1

/-- `save_concept_mapping`: validate first; on any invalid entry raise before
anything is written, otherwise write the cleaned mapping and return it. -/
def save_concept_mapping (m : List (String × String)) (fs : ConceptFile) :
    Except String (ConceptFile × List (String × String)) :=
  let cleaned := (normalize_mapping m).1
  let invalid := (normalize_mapping m).2
  if invalid ≠ [] then
    .error ("Invalid concept values for: " ++
      String.intercalate ", " (sortStr (invalid.map Prod.fst)))
  else
    .ok (some cleaned, cleaned)

/-- The file state after a `save_concept_mapping` call (unchanged when the
save raised, since the write happens after validation). -/
def runSave (m : List (String × String)) (fs : ConceptFile) : ConceptFile :=
  match save_concept_mapping m fs with
  | .error _ => fs
  | .ok r => r.1

/-! ## recommendations.py -/

/-- A row as consumed by the recommendation engine (canonical row with a
resolved concept; only these four fields are read). -/
structure CRow where
  student_id : String
  exam_id : String
  points_lost : Rat
  concept : String
deriving DecidableEq, Repr

/-- Per-concept aggregate of `_concept_stats`. -/
structure CStat where
  concept : String
  crows : Nat
  students_affected : Nat
  points_lost_total : Rat
deriving DecidableEq, Repr

/-- Stable descending insertion by a rational key (pandas
`sort_values(ascending=False)` is a stable sort). -/
def insertByDesc {β : Type} (key : β → Rat) (x : β) : List β → List β
  | [] => [x]
  | y :: ys => if key x < key y then y :: insertByDesc key x ys else x :: y :: ys

/-- Stable sort, descending by a rational key. -/
def sortByDesc {β : Type} (key : β → Rat) : List β → List β
  | [] => []
  | x :: xs => insertByDesc key x (sortByDesc key xs)

/-- `_concept_stats`: trim concepts, drop blank ones, aggregate per concept
(groupby yields concepts sorted ascending), sort by total points descending. -/
def concept_stats (rows : List CRow) : List CStat :=
  let scopedR := (rows.map (fun r => { r with concept := pstrip r.concept })).filter
    (fun r => r.concept ≠ "")
  if scopedR = [] then []
  else
    sortByDesc (fun s => s.points_lost_total)
      ((sortStr (dedupFirst (scopedR.map (fun r => r.concept)))).map (fun c =>
        let subset := scopedR.filter (fun r => r.concept = c)
        { concept := c
          crows := subset.length
          students_affected := (dedupFirst (subset.map (fun r => r.student_id))).length
          points_lost_total := (subset.map (fun r => r.points_lost)).sum }))

/-- Per-concept persistence record of `_concept_persistence`. -/
structure CPersist where
  concept : String
  cohort_size : Nat
  repeated : Nat
  persistence_rate : Rat
deriving DecidableEq, Repr

/-- `_concept_persistence`: empty when the supplied ordering, or the ordering
filtered to observed exams, has fewer than 2 entries; otherwise one record
per concept that has a cohort on the first exam, sorted by rate descending. -/
def concept_persistence (rows : List CRow) (exam_order : List String) :
    List CPersist :=
  if exam_order.length < 2 then []
  else
    let data := (rows.map (fun r => { r with concept := pstrip r.concept })).filter
      (fun r => r.concept ≠ "")
    if data = [] then []
    else
      let order_list := exam_order.filter
        (fun e => e ∈ dedupFirst (data.map (fun r => r.exam_id)))
      if order_list.length < 2 then []
      else
        let first_exam := order_list.headD ""
        sortByDesc (fun p => p.persistence_rate)
          ((sortStr (dedupFirst (data.map (fun r => r.concept)))).filterMap (fun c =>
            let subset := data.filter (fun r => r.concept = c)
            let cohortL := dedupFirst ((subset.filter
              (fun r => r.exam_id = first_exam)).map (fun r => r.student_id))
            if cohortL.isEmpty then none
            else
              let laterSub := subset.filter
                (fun r => examRank exam_order r.exam_id > 0)
              let repeatedL := (dedupFirst (laterSub.map (fun r => r.student_id))).filter
                (fun s => s ∈ cohortL)
              some { concept := c
                     cohort_size := cohortL.length
                     repeated := repeatedL.length
                     persistence_rate :=
                       if cohortL.length = 0 then 0
                       else (repeatedL.length : Rat) / (cohortL.length : Rat) }))

/-- `_filter_allowed_concepts` applied to aggregated stats. -/
def filter_allowed_concepts (stats : List CStat) (allowed : Option (List String)) :
    List CStat :=
  match allowed with
  | none => stats
  | some l =>
    let allowedSet := dedupFirst ((l.map pstrip).filter (fun s => s ≠ ""))
    if allowedSet = [] then []
    else stats.filter (fun s => s.concept ∈ allowedSet)

/-- One recommendation record. -/
structure RecRow where
  concept : String
  action : String
  impact_score : Rat
  students : Nat
  points_lost_total : Rat
  persistence_rate : Rat
deriving DecidableEq, Repr

/-- `concept_persist[concept_persist["concept"] == concept]["persistence_rate"]
.fillna(0).values[0]`: `IndexError` when the concept has no record. -/
def rateLookup (persist : List CPersist) (c : String) : Except String Rat :=
  match (persist.filter (fun p => p.concept = c)).map (fun p => p.persistence_rate) with
  | [] => .error "IndexError: index 0 is out of bounds"
  | q :: _ => .ok q

/-- `compute_recommendations`: aggregate, restrict, score, rank, join with
concept persistence, and label.  The persistence-rate join indexes into the
filtered frame and raises when a recommended concept lacks a record while the
persistence frame is non-empty. -/
def compute_recommendations (rows : List CRow) (exam_order : Option (List String))
    (allowed_concepts : Option (List String)) (top_n : Nat)
    (include_unmapped : Bool) (unmapped_label : String) :
    Except String (List RecRow) :=
  let data0 := rows.map (fun r => { r with concept := pstrip r.concept })
  let data := if include_unmapped then data0
    else data0.filter (fun r => r.concept ≠ unmapped_label)
  let stats := filter_allowed_concepts (concept_stats data) allowed_concepts
  if stats = [] then .ok []
  else
    let scored := sortByDesc
      (fun s => s.points_lost_total * ((max s.students_affected 1 : Nat) : Rat)) stats
    let exams := dedupFirst (data.map (fun r => r.exam_id))
    let order_list :=
      match exam_order with
      | some l =>
        if l = [] then sortStr exams
        else
          let f := l.filter (fun e => e ∈ exams)
          if f = [] then sortStr exams else f
      | none => sortStr exams
    let persist := if order_list ≠ [] then concept_persistence data order_list else []
    (scored.take top_n).mapM (fun s => do
      let rate ← if persist ≠ [] then rateLookup persist s.concept else pure 0
      let impact := s.points_lost_total * ((max s.students_affected 1 : Nat) : Rat)
      pure { concept := s.concept
             action := if rate ≥ 1 / 5 then "Re-teach" else "Add practice for"
             impact_score := impact
             students := s.students_affected
             points_lost_total := s.points_lost_total
             persistence_rate := rate })

/-! ## app.py `_misconception_clusters` and its union-find -/

/-- Path-halving `find` with explicit fuel: while the node is not its own
parent, point it at its grandparent and step there.  Returns the updated
parent map and the root.  (The source loop is unbounded; with the fuel used
below it never runs out on the forest states the algorithm produces.) -/
def ufFind {α : Type} [DecidableEq α] : Nat → (α → α) → α → (α → α) × α
  | 0, p, x => (p, x)
  | n + 1, p, x =>
    if p x = x then (p, x)
    else
      let p2 := Function.update p x (p (p x))
      ufFind n p2 (p2 x)

/-- `union`: find both roots and attach the second root under the first. -/
def ufUnion {α : Type} [DecidableEq α] (fuel : Nat) (p : α → α) (x y : α) :
    α → α :=
  let fx := ufFind fuel p x
  let fy := ufFind fuel fx.1 y
  if fx.2 = fy.2 then fy.1 else Function.update fy.1 fy.2 fx.2

/-- Process a list of edges through `union`, threading the parent map. -/
def ufUnions {α : Type} [DecidableEq α] (fuel : Nat) (p : α → α)
    (edges : List (α × α)) : α → α :=
  edges.foldl (fun q e => ufUnion fuel q e.1 e.2) p

/-- `find` every item in turn (the cluster-assignment pass), threading the
parent map; returns the final map and each item paired with its root. -/
def ufFindAll {α : Type} [DecidableEq α] (fuel : Nat) :
    (α → α) → List α → (α → α) × List (α × α)
  | p, [] => (p, [])
  | p, x :: xs =>
    let fx := ufFind fuel p x
    let rest := ufFindAll fuel fx.1 xs
    (rest.1, (x, fx.2) :: rest.2)

/-- The trimmed, non-blank-rubric rows `_misconception_clusters` works on. -/
def scopedRows (rows : List Row) : List Row :=
  (rows.map (fun r => { r with rubric_item := pstrip r.rubric_item })).filter
    (fun r => r.rubric_item ≠ "")

/-- Incidence set of a rubric item: the distinct students who incurred it
anywhere (as a deduplicated list; only membership and size are consumed). -/
def incidenceList (rows : List Row) (item : String) : List String :=
  dedupFirst (((scopedRows rows).filter (fun r => r.rubric_item = item)).map
    (fun r => r.student_id))

/-- The insertion order of the incidence dict: students in sorted groupby
order, each contributing its distinct rubric items in row order. -/
def itemsOrder (rows : List Row) : List String :=
  dedupFirst ((sortStr (dedupFirst ((scopedRows rows).map (fun r => r.student_id)))).flatMap
    (fun s => dedupFirst (((scopedRows rows).filter
      (fun r => r.student_id = s)).map (fun r => r.rubric_item))))

/-- Items surviving the minimum-support filter, in incidence-dict order. -/
def filteredItems (rows : List Row) (min_support : Nat) : List String :=
  (itemsOrder rows).filter (fun it => (incidenceList rows it).length ≥ min_support)

/-- Intersection size of two incidence sets. -/
def interSize (rows : List Row) (a b : String) : Nat :=
  ((incidenceList rows a).filter (fun s => s ∈ incidenceList rows b)).length

/-- Union size of two incidence sets. -/
def unionSize (rows : List Row) (a b : String) : Nat :=
  (dedupFirst (incidenceList rows a ++ incidenceList rows b)).length

/-- The jaccard similarity of a pair (0 on an empty union; the source skips
that pair before it ever divides). -/
def jaccardOf (rows : List Row) (a b : String) : Rat :=
  (interSize rows a b : Rat) / (unionSize rows a b : Rat)

/-- The square of the cosine-style co-occurrence correlation
`inter / sqrt(|A|·|B|)` (kept squared to stay in exact arithmetic; the
correlation itself is its nonnegative square root, so equalities and
threshold comparisons transfer). -/
def corrSqOf (rows : List Row) (a b : String) : Rat :=
  let na := (incidenceList rows a).length
  let nb := (incidenceList rows b).length
  if na ≠ 0 ∧ nb ≠ 0 then
    (interSize rows a b : Rat) * (interSize rows a b : Rat) / ((na : Rat) * (nb : Rat))
  else 0

/-- `corr >= corr_threshold` decided in exact arithmetic: for a positive
threshold square both sides; a non-positive threshold always passes since
`corr ≥ 0`. -/
def corrGe (rows : List Row) (ct : Rat) (a b : String) : Bool :=
  let na := (incidenceList rows a).length
  let nb := (incidenceList rows b).length
  if na ≠ 0 ∧ nb ≠ 0 then
    ct ≤ 0 ∨
      (interSize rows a b : Rat) * (interSize rows a b : Rat) ≥
        ct * ct * (na : Rat) * (nb : Rat)
  else ct ≤ 0

/-- The edge list: surviving unordered pairs, skipping empty unions, drawn
when jaccard or correlation reaches its threshold. -/
def edgesOf (rows : List Row) (jt ct : Rat) (min_support : Nat) :
    List (String × String) :=
  (pairsOf (filteredItems rows min_support)).filter (fun e =>
    unionSize rows e.1 e.2 ≠ 0 ∧
      (jaccardOf rows e.1 e.2 ≥ jt ∨ corrGe rows ct e.1 e.2))

/-- A misconception cluster record. -/
structure Cluster where
  label : String
  members : List String
  size : Nat
  support_students : Nat
deriving DecidableEq, Repr

/-- The parent map after union-ing every drawn edge (the `parent` dict after
the edge loop); the fuel bound `items.length` covers every chain of the
forest states the algorithm builds. -/
def clusterParent (rows : List Row) (jt ct : Rat) (min_support : Nat) :
    String → String :=
  ufUnions (filteredItems rows min_support).length id (edgesOf rows jt ct min_support)

/-- The cluster-assignment pass: `find(item)` for each surviving item with
the threaded parent map. -/
def clusterPass (rows : List Row) (jt ct : Rat) (min_support : Nat) :
    (String → String) × List (String × String) :=
  ufFindAll (filteredItems rows min_support).length
    (clusterParent rows jt ct min_support) (filteredItems rows min_support)

/-- The member list of the cluster rooted at `r`, in item order. -/
def clusterMembers (rows : List Row) (jt ct : Rat) (min_support : Nat)
    (r : String) : List String :=
  ((clusterPass rows jt ct min_support).2.filter (fun pr => pr.2 = r)).map Prod.fst

/-- `_misconception_clusters` (cluster half): support-filter the incidence
map, draw similarity edges, union-find the connected components, and emit
each component with its member list and student support. -/
def misconception_clusters (rows : List Row) (jt ct : Rat) (min_support : Nat) :
    List Cluster :=
  if scopedRows rows = [] then []
  else if (filteredItems rows min_support).length < 2 then []
  else
    (dedupFirst ((clusterPass rows jt ct min_support).2.map Prod.snd)).enum.map
      (fun ir =>
        { label := "Misconception " ++ toString (ir.1 + 1)
          members := sortStr (clusterMembers rows jt ct min_support ir.2)
          size := (clusterMembers rows jt ct min_support ir.2).length
          support_students :=
            (dedupFirst ((clusterMembers rows jt ct min_support ir.2).flatMap
              (incidenceList rows))).length })

/-! ## Concrete instances used by scenario theorems and witnesses -/

/-- A canonical row with the optional fields left empty. -/
def mkRow (s e q i : String) (p : Rat) : Row :=
  { student_id := s, exam_id := e, question_id := q, rubric_item := i,
    points_lost := p, topic := "", section_id := "", ta_id := "" }

/-- A row function of a declared-canonical five-column table. -/
def canonCells (s e q i : String) (p : Val) : String → Val := fun c =>
  if c = "student_id" then .str s else if c = "exam_id" then .str e
  else if c = "question_id" then .str q else if c = "rubric_item" then .str i
  else if c = "points_lost" then p else .na

/-- The five declared-canonical column names. -/
def canonCols : List String :=
  ["student_id", "exam_id", "question_id", "rubric_item", "points_lost"]

/-- The six-row persistence scenario table of the spec, already normalized. -/
def scenarioRows : List Row :=
  [mkRow "s1" "E1" "Q1" "A" 1, mkRow "s1" "E2" "Q1" "A" 2,
   mkRow "s2" "E1" "Q1" "A" (1 / 2), mkRow "s2" "E2" "Q1" "B" 1,
   mkRow "s3" "E1" "Q1" "B" 1, mkRow "s3" "E2" "Q1" "B" (3 / 2)]

/-- The persistence scenario as a raw declared-canonical dataframe. -/
def scenarioFrame : PFrame :=
  { cols := canonCols,
    rows := [canonCells "s1" "E1" "Q1" "A" (.num 1),
             canonCells "s1" "E2" "Q1" "A" (.num 2),
             canonCells "s2" "E1" "Q1" "A" (.num (1 / 2)),
             canonCells "s2" "E2" "Q1" "B" (.num 1),
             canonCells "s3" "E1" "Q1" "B" (.num 1),
             canonCells "s3" "E2" "Q1" "B" (.num (3 / 2))] }

/-- A valid one-row, one-exam declared-canonical table. -/
def oneExamFrame : PFrame :=
  { cols := canonCols, rows := [canonCells "s1" "E1" "Q1" "A" (.num 1)] }

/-- The declared-canonical table whose `points_lost` holds the string "-1". -/
def negOneFrame : PFrame :=
  { cols := canonCols, rows := [canonCells "u1" "ExamB" "Q1" "Bad" (.str "-1")] }

/-- A gradescope-export-schema table (the schema `invariants.py` validates). -/
def gradescopeFrame : PFrame :=
  { cols := REQUIRED_COLUMNS,
    rows := [fun c =>
      if c = "student_id" then .str "s101" else if c = "student_name" then .str "Alex"
      else if c = "assignment" then .str "P1" else if c = "rubric_item" then .str "Style"
      else if c = "category" then .str "Tech" else if c = "score" then .num 3
      else if c = "max_score" then .num 5 else if c = "comment" then .str "ok"
      else .na] }

/-- Recommendation input on which concept X appears only after the first
exam while concept Y has a first-exam cohort. -/
def recCrashRows : List CRow :=
  [{ student_id := "s1", exam_id := "E1", points_lost := 1, concept := "Y" },
   { student_id := "s2", exam_id := "E2", points_lost := 2, concept := "X" }]

/-- Two students jointly missing rubric items A, B and C. -/
def mcScenarioRows : List Row :=
  [mkRow "s1" "E1" "Q1" "A" 1, mkRow "s1" "E1" "Q1" "B" 1, mkRow "s1" "E1" "Q1" "C" 1,
   mkRow "s2" "E1" "Q1" "A" 1, mkRow "s2" "E1" "Q1" "B" 1, mkRow "s2" "E1" "Q1" "C" 1]

/-- Does `sub` occur as a contiguous substring of `l`? -/
def hasSublist : List Char → List Char → Bool
  | l, sub =>
    match l with
    | [] => sub.isEmpty
    | c :: cs => sub.isPrefixOf (c :: cs) || hasSublist cs sub

/-- Substring occurrence on strings (used to state what an error message
mentions). -/
def mentionsStr (s sub : String) : Bool := hasSublist s.data sub.data

/-- The specification-worded result of a concept-mapping save: the input
mapping with every key and value whitespace-trimmed, accumulated with dict
semantics. -/
def trimMapping (m : List (String × String)) : List (String × String) :=
  m.foldl (fun acc kv => dinsert acc (cleanStr kv.1) (cleanStr kv.2)) []

/-- The cohort as the specification words it: the set of distinct
`student_id`s with a row for the item on the first exam of the ordering. -/
def cohortSet (rows : List Row) (first item : String) : Finset String :=
  ((rows.filter (fun r => r.rubric_item = item ∧ r.exam_id = first)).map
    (fun r => r.student_id)).toFinset

/-- The later-exam incurrers as the specification words it: the set of
distinct `student_id`s with a row for the item on an exam strictly after the
first in the ordering. -/
def laterSet (rows : List Row) (ol : List String) (item : String) : Finset String :=
  ((rows.filter (fun r => r.rubric_item = item ∧ r.exam_id ∈ ol.drop 1)).map
    (fun r => r.student_id)).toFinset

/-- `r` is the root reached from `x` by iterating the parent map. -/
def Reaches {α : Type} (p : α → α) (x r : α) : Prop :=
  (∃ n, p^[n] x = r) ∧ p r = r

/-- A well-formed union-find state over the finite item set `S`: the parent
map is the identity outside `S`, maps `S` into `S`, and every chain of
parents terminates at a root. -/
def UFok {α : Type} (S : Finset α) (p : α → α) : Prop :=
  (∀ x, x ∉ S → p x = x) ∧ (∀ x, x ∈ S → p x ∈ S) ∧ (∀ x, ∃ r, Reaches p x r)

/-- Two nodes share a root. -/
def SameRoot {α : Type} (p : α → α) (x y : α) : Prop :=
  ∃ r, Reaches p x r ∧ Reaches p y r

deriving instance DecidableEq for Except

/-- Did the computation raise? -/
def isError {e a : Type} : Except e a → Bool
  | .error _ => true
  | .ok _ => false

/-! ## Theorems -/

/-- C3: the claim says `run_invariants` returns four checks named
`required_columns`, `missing_identifiers`, `non_numeric_points_lost`,
`negative_points_lost`, checks against the canonical column set, and never
raises.  The code instead validates a gradescope-export schema: on a valid
canonical table it raises `KeyError` for the absent `score` column, and on a
table of its own schema it names the third and fourth checks
`non_numeric_scores` and `score_range_violations`. -/
theorem C3_run_invariants_contradicts_spec_and_tests :
    run_invariants oneExamFrame = .error "KeyError: score" ∧
    (run_invariants gradescopeFrame).map (fun l => l.map CheckResult.name) =
      .ok ["required_columns", "missing_identifiers", "non_numeric_scores",
        "score_range_violations"] := by
  constructor
  · rfl
  · rfl

/-- C4: the claim says `compute_recommendations` completes without raising,
joining persistence rate 0 for a recommended concept without a persistence
record.  On a table where concept X occurs only after the first exam (so it
has no record) while concept Y has one, the `.values[0]` join raises an
`IndexError` instead. -/
theorem C4_compute_recommendations_raises_on_missing_record :
    compute_recommendations recCrashRows none none 5 false "Unmapped" =
      .error "IndexError: index 0 is out of bounds" := by
  decide

/-- C7 counterexample: with an empty mapping dict every required field is
missing, yet the raised message names only `student_id` — it does not mention
`exam_id`, which is also missing.  The claim that the error lists every
missing required field is therefore false. -/
theorem C7_counterexample_only_first_field_listed :
    MappingConfig.from_dict [] =
      .error "Missing required mapping for student_id" ∧
    mgetFalsy [] "exam_id" = true ∧
    mentionsStr "Missing required mapping for student_id" "exam_id" = false := by
  refine ⟨rfl, rfl, ?_⟩
  decide

/-- C7 (amended): whenever some required canonical field is absent or maps to
an empty value, `MappingConfig.from_dict` raises a `ValueError` naming exactly
the first such field in the order student_id, exam_id, question_id,
rubric_item, points_lost. -/
theorem C7_from_dict_names_first_missing_field (m : List (String × Option String))
    (h : ∃ k ∈ REQUIRED_CANONICAL, mgetFalsy m k = true) :
    ∃ k, REQUIRED_CANONICAL.find? (fun j => mgetFalsy m j) = some k ∧
      MappingConfig.from_dict m = .error ("Missing required mapping for " ++ k) ∧
      k ∈ REQUIRED_CANONICAL ∧ mgetFalsy m k = true := by
  obtain ⟨k0, hk0, hf0⟩ := h
  have hsome : (REQUIRED_CANONICAL.find? (fun j => mgetFalsy m j)).isSome := by
    rw [List.find?_isSome]
    exact ⟨k0, hk0, hf0⟩
  obtain ⟨k, hk⟩ := Option.isSome_iff_exists.mp hsome
  refine ⟨k, hk, ?_, List.mem_of_find?_eq_some hk, List.find?_some hk⟩
  unfold MappingConfig.from_dict
  rw [hk]

/-- Witness for C7: the amended theorem applied to the empty mapping. -/
theorem C7_from_dict_names_first_missing_field_witness :
    ∃ k, REQUIRED_CANONICAL.find? (fun j => mgetFalsy [] j) = some k ∧
      MappingConfig.from_dict [] = .error ("Missing required mapping for " ++ k) ∧
      k ∈ REQUIRED_CANONICAL ∧ mgetFalsy [] k = true :=
  C7_from_dict_names_first_missing_field [] ⟨"student_id", by decide, by decide⟩

theorem dinsert_ne_nil (l : List (String × String)) (k v : String) :
    dinsert l k v ≠ [] := by
  unfold dinsert
  split
  · intro h
    rcases l with _ | ⟨p, l⟩
    · simp at *
    · simp at h
  · simp

/-- A bad entry in the suffix keeps the invalid dict non-empty. -/
theorem normStep_invalid_mono (acc : List (String × String) × List (String × String))
    (kv : String × String) (h : acc.2 ≠ []) : (normStep acc kv).2 ≠ [] := by
  simp only [normStep]
  split_ifs
  · exact dinsert_ne_nil _ _ _
  · exact h
  · exact dinsert_ne_nil _ _ _

theorem foldl_normStep_invalid_mono (m : List (String × String))
    (acc : List (String × String) × List (String × String)) (h : acc.2 ≠ []) :
    (m.foldl normStep acc).2 ≠ [] := by
  induction m generalizing acc with
  | nil => exact h
  | cons kv rest ih => exact ih _ (normStep_invalid_mono acc kv h)

/-- Any blank-keyed or placeholder-valued entry makes the invalid dict of
`normalize_mapping` non-empty. -/
theorem foldl_normStep_invalid_of_bad (m : List (String × String))
    (acc : List (String × String) × List (String × String))
    (kv : String × String) (hmem : kv ∈ m)
    (hbad : cleanStr kv.1 = "" ∨ isValidConcept (cleanStr kv.2) = false) :
    (m.foldl normStep acc).2 ≠ [] := by
  revert hmem
  induction m generalizing acc with
  | nil => intro hmem; cases hmem
  | cons hd rest ih =>
    intro hmem
    rcases List.mem_cons.mp hmem with heq | hmem2
    · subst heq
      rw [List.foldl_cons]
      apply foldl_normStep_invalid_mono
      simp only [normStep]
      split_ifs with h1 h2
      · exact dinsert_ne_nil _ _ _
      · rcases hbad with hk | hv
        · exact absurd hk h1
        · rw [hv] at h2; cases h2
      · exact dinsert_ne_nil _ _ _
    · exact ih _ hmem2

/-- C6: concept-mapping save is atomic and fail-closed: any entry whose
trimmed key is blank or whose trimmed value is blank or a reserved
placeholder token makes `save_concept_mapping` raise, and the persisted file
is exactly what it was before the call; in particular saving
`{"Item A": "yes"}` is rejected with no file written. -/
theorem C6_save_concept_mapping_atomic :
    (∀ (m : List (String × String)) (fs : ConceptFile),
      (∃ kv ∈ m, cleanStr kv.1 = "" ∨ isValidConcept (cleanStr kv.2) = false) →
        isError (save_concept_mapping m fs) = true ∧ runSave m fs = fs) ∧
    (∀ fs : ConceptFile,
      isError (save_concept_mapping [("Item A", "yes")] fs) = true ∧
        runSave [("Item A", "yes")] fs = fs) := by
  have main : ∀ (m : List (String × String)) (fs : ConceptFile),
      (∃ kv ∈ m, cleanStr kv.1 = "" ∨ isValidConcept (cleanStr kv.2) = false) →
        isError (save_concept_mapping m fs) = true ∧ runSave m fs = fs := by
    intro m fs h
    obtain ⟨kv, hmem, hbad⟩ := h
    have hinv : (normalize_mapping m).2 ≠ [] :=
      foldl_normStep_invalid_of_bad m ([], []) kv hmem hbad
    have herr : isError (save_concept_mapping m fs) = true := by
      unfold save_concept_mapping
      rw [if_pos hinv]
      rfl
    refine ⟨herr, ?_⟩
    unfold runSave
    split
    · rfl
    · rename_i r hr
      rw [show save_concept_mapping m fs =
        .error ("Invalid concept values for: " ++ String.intercalate ", "
          (sortStr ((normalize_mapping m).2.map Prod.fst))) from by
          unfold save_concept_mapping; rw [if_pos hinv]] at hr
      cases hr
  refine ⟨main, fun fs => main _ fs ⟨("Item A", "yes"), by decide, by decide⟩⟩

/-- Witness for C6: saving `{"Item A": "yes"}` over a populated file raises
and leaves the file untouched. -/
theorem C6_save_concept_mapping_atomic_witness :
    isError (save_concept_mapping [("Item A", "yes")] (some [("Item B", "Algebra")]))
        = true ∧
      runSave [("Item A", "yes")] (some [("Item B", "Algebra")]) =
        some [("Item B", "Algebra")] :=
  C6_save_concept_mapping_atomic.2 (some [("Item B", "Algebra")])

/-- Stripping is idempotent on character lists. -/
theorem stripChars_idem (l : List Char) : stripChars (stripChars l) = stripChars l := by
  unfold stripChars
  have hdw : (List.rdropWhile isWS (l.dropWhile isWS)).dropWhile isWS =
      List.rdropWhile isWS (l.dropWhile isWS) := by
    cases htc : List.rdropWhile isWS (l.dropWhile isWS) with
    | nil => simp
    | cons c cs =>
      have hpre : List.rdropWhile isWS (l.dropWhile isWS) <+: l.dropWhile isWS :=
        List.rdropWhile_prefix isWS _
      rw [htc] at hpre
      obtain ⟨s, hs⟩ := hpre
      have h0 : (l.dropWhile isWS).dropWhile isWS = l.dropWhile isWS :=
        List.dropWhile_idempotent isWS l
      have hcw : ¬ isWS c = true := by
        intro hc
        rw [← hs, List.cons_append, List.dropWhile_cons, if_pos hc] at h0
        have hlen := congrArg List.length h0
        simp only [List.length_cons] at hlen
        have := (List.dropWhile_sublist (l := cs ++ s) isWS).length_le
        omega
      rw [List.dropWhile_cons, if_neg hcw]
  rw [hdw]
  exact List.rdropWhile_idempotent isWS _

/-- Python `str.strip` is idempotent. -/
theorem pstrip_idem (s : String) : pstrip (pstrip s) = pstrip s := by
  unfold pstrip
  rw [show (String.mk (stripChars s.data)).data = stripChars s.data from rfl,
    stripChars_idem]

/-- Inserting an unseen key appends the pair. -/
theorem dinsert_append (l : List (String × String)) (k v : String)
    (h : ∀ p ∈ l, p.1 ≠ k) : dinsert l k v = l ++ [(k, v)] := by
  unfold dinsert
  rw [if_neg]
  simp only [List.any_eq_true, not_exists, not_and]
  intro p hp
  simp [h p hp]

/-- Membership in an updated dict comes from the new pair or the old dict. -/
theorem mem_dinsert (l : List (String × String)) (k v : String)
    (p : String × String) (hp : p ∈ dinsert l k v) : p = (k, v) ∨ p ∈ l := by
  unfold dinsert at hp
  split at hp
  · rcases List.mem_map.mp hp with ⟨q, hq, hqe⟩
    by_cases hqk : q.1 = k
    · rw [if_pos hqk] at hqe
      exact Or.inl hqe.symm
    · rw [if_neg hqk] at hqe
      exact Or.inr (hqe ▸ hq)
  · rcases List.mem_append.mp hp with hl | hr
    · exact Or.inr hl
    · exact Or.inl (List.mem_singleton.mp hr)

/-- The key list of an updated dict. -/
theorem dinsert_keys (l : List (String × String)) (k v : String) :
    (dinsert l k v).map Prod.fst =
      if l.any (fun p => p.1 = k) then l.map Prod.fst
      else l.map Prod.fst ++ [k] := by
  unfold dinsert
  by_cases hc : (l.any fun p => decide (p.1 = k)) = true
  · rw [if_pos hc, if_pos hc, List.map_map]
    apply List.map_congr_left
    intro p _
    by_cases hpk : p.1 = k
    · simp [hpk]
    · simp [hpk]
  · rw [if_neg hc, if_neg hc]
    simp

/-- Updating preserves distinctness of keys. -/
theorem dinsert_nodup_keys (l : List (String × String)) (k v : String)
    (h : (l.map Prod.fst).Nodup) : ((dinsert l k v).map Prod.fst).Nodup := by
  rw [dinsert_keys]
  by_cases hc : (l.any fun p => decide (p.1 = k)) = true
  · rw [if_pos hc]
    exact h
  · rw [if_neg hc]
    have hkm : k ∉ l.map Prod.fst := by
      intro hk
      rcases List.mem_map.mp hk with ⟨q, hq, hqe⟩
      exact hc (List.any_eq_true.mpr ⟨q, hq, by simp [hqe]⟩)
    simp [List.nodup_append, h, hkm]

/-- On an all-valid mapping, normalization routes every trimmed entry into
the cleaned dict and the invalid dict stays as given. -/
theorem foldl_normStep_all_good (m : List (String × String))
    (acc : List (String × String) × List (String × String))
    (h : ∀ kv ∈ m, cleanStr kv.1 ≠ "" ∧ isValidConcept (cleanStr kv.2) = true) :
    m.foldl normStep acc =
      (m.foldl (fun a kv => dinsert a (cleanStr kv.1) (cleanStr kv.2)) acc.1, acc.2) := by
  induction m generalizing acc with
  | nil => rfl
  | cons hd rest ih =>
    have hh := h hd (List.mem_cons_self hd rest)
    rw [List.foldl_cons, List.foldl_cons]
    rw [show normStep acc hd = (dinsert acc.1 (cleanStr hd.1) (cleanStr hd.2), acc.2) from by
      simp only [normStep]
      rw [if_neg hh.1, if_pos hh.2]]
    exact ih _ (fun kv hkv => h kv (List.mem_cons_of_mem hd hkv))

/-- Every entry of the trimmed fold is a trimmed input entry (or carried over
from the accumulator). -/
theorem mem_trimFold (m : List (String × String))
    (acc : List (String × String)) (p : String × String)
    (hp : p ∈ m.foldl (fun a kv => dinsert a (cleanStr kv.1) (cleanStr kv.2)) acc) :
    p ∈ acc ∨ ∃ kv ∈ m, p = (cleanStr kv.1, cleanStr kv.2) := by
  induction m generalizing acc with
  | nil => exact Or.inl hp
  | cons hd rest ih =>
    rw [List.foldl_cons] at hp
    rcases ih _ hp with hacc | ⟨kv, hkv, hpe⟩
    · rcases mem_dinsert _ _ _ _ hacc with hnew | hold
      · exact Or.inr ⟨hd, List.mem_cons_self hd rest, hnew⟩
      · exact Or.inl hold
    · exact Or.inr ⟨kv, List.mem_cons_of_mem hd hkv, hpe⟩

/-- The trimmed fold keeps keys distinct. -/
theorem trimFold_nodup_keys (m : List (String × String))
    (acc : List (String × String)) (h : (acc.map Prod.fst).Nodup) :
    ((m.foldl (fun a kv => dinsert a (cleanStr kv.1) (cleanStr kv.2)) acc).map
      Prod.fst).Nodup := by
  induction m generalizing acc with
  | nil => exact h
  | cons hd rest ih =>
    rw [List.foldl_cons]
    exact ih _ (dinsert_nodup_keys _ _ _ h)

/-- Normalization is the identity on an already-clean dict with distinct
keys (entries trimmed, keys non-blank, values valid). -/
theorem foldl_normStep_fixed (c : List (String × String))
    (acc1 inv : List (String × String))
    (hclean : ∀ p ∈ c, p.1 = cleanStr p.1 ∧ p.1 ≠ "" ∧ p.2 = cleanStr p.2 ∧
      isValidConcept p.2 = true)
    (hkeys : (acc1.map Prod.fst ++ c.map Prod.fst).Nodup) :
    c.foldl normStep (acc1, inv) = (acc1 ++ c, inv) := by
  induction c generalizing acc1 with
  | nil => simp
  | cons p rest ih =>
    have hp := hclean p (List.mem_cons_self p rest)
    have hstep : normStep (acc1, inv) p = (acc1 ++ [p], inv) := by
      simp only [normStep]
      rw [if_neg (by rw [← hp.1]; exact hp.2.1),
        if_pos (by rw [← hp.2.2.1]; exact hp.2.2.2)]
      rw [show dinsert acc1 (cleanStr p.1) (cleanStr p.2) = acc1 ++ [p] from by
        rw [← hp.1, ← hp.2.2.1]
        exact dinsert_append acc1 p.1 p.2 (by
          intro q hq hq1
          have : p.1 ∉ acc1.map Prod.fst := by
            have := (List.nodup_append.mp hkeys).2.2
            intro hmem
            exact this hmem (by simp)
          exact this (hq1 ▸ List.mem_map_of_mem Prod.fst hq))]
    rw [List.foldl_cons, hstep]
    rw [ih (acc1 ++ [p])
      (fun q hq => hclean q (List.mem_cons_of_mem p hq))
      (by
        simp only [List.map_append, List.map_cons] at hkeys ⊢
        simpa [List.append_assoc] using hkeys)]
    simp

/-- C10: for a mapping whose entries all have non-blank trimmed keys and
valid (non-placeholder) trimmed values, `save_concept_mapping` succeeds,
writes the cleaned mapping, and a subsequent `load_concept_mapping` returns
exactly that cleaned mapping — the input with every key and value
whitespace-trimmed (`trimMapping`). -/
theorem C10_save_load_roundtrip (m : List (String × String)) (fs : ConceptFile)
    (h : ∀ kv ∈ m, cleanStr kv.1 ≠ "" ∧ isValidConcept (cleanStr kv.2) = true) :
    save_concept_mapping m fs = .ok (some (trimMapping m), trimMapping m) ∧
    load_concept_mapping (some (trimMapping m)) = trimMapping m := by
  have hnorm : normalize_mapping m = (trimMapping m, []) := by
    unfold normalize_mapping trimMapping
    exact foldl_normStep_all_good m ([], []) h
  have hclean : ∀ p ∈ trimMapping m, p.1 = cleanStr p.1 ∧ p.1 ≠ "" ∧
      p.2 = cleanStr p.2 ∧ isValidConcept p.2 = true := by
    intro p hp
    rcases mem_trimFold m [] p hp with hnil | ⟨kv, hkv, hpe⟩
    · cases hnil
    · have hgood := h kv hkv
      subst hpe
      refine ⟨(pstrip_idem kv.1).symm, hgood.1, (pstrip_idem kv.2).symm, hgood.2⟩
  have hsave : save_concept_mapping m fs = .ok (some (trimMapping m), trimMapping m) := by
    unfold save_concept_mapping
    rw [hnorm]
    simp
  refine ⟨hsave, ?_⟩
  have hfix : normalize_mapping (trimMapping m) = ([] ++ trimMapping m, []) := by
    unfold normalize_mapping
    exact foldl_normStep_fixed (trimMapping m) [] [] hclean
      (by simpa using trimFold_nodup_keys m [] (by simp))
  show (normalize_mapping (trimMapping m)).1 = trimMapping m
  rw [hfix]
  simp

/-- Witness for C10: saving and re-loading a one-entry mapping whose key and
value carry surrounding whitespace returns the trimmed entry. -/
theorem C10_save_load_roundtrip_witness :
    save_concept_mapping [(" Item A ", " Algebra ")] none =
        .ok (some (trimMapping [(" Item A ", " Algebra ")]),
          trimMapping [(" Item A ", " Algebra ")]) ∧
      load_concept_mapping (some (trimMapping [(" Item A ", " Algebra ")])) =
        trimMapping [(" Item A ", " Algebra ")] :=
  C10_save_load_roundtrip [(" Item A ", " Algebra ")] none (by decide)

/-- C2 counterexample: a valid one-row table with a single exam has an
effective ordering of length 1 (fewer than 2 exams), yet `compute_persistence`
returns a record for rubric item A instead of an empty result. -/
theorem C2_counterexample_one_exam_returns_records :
    compute_persistence oneExamFrame none =
      .ok [{ rubric_item := "A", cohort_size := 1, repeated := 0,
             persistence_rate := 0 }] ∧
    (effOrder [mkRow "s1" "E1" "Q1" "A" 1] none).length = 1 ∧
    ([{ rubric_item := "A", cohort_size := 1, repeated := 0,
        persistence_rate := 0 }] : List PRow) ≠ [] := by
  refine ⟨rfl, rfl, ?_⟩
  decide

/-- C2 (amended): `_concept_persistence` does return an empty frame whenever
the supplied ordering filtered to observed exams has fewer than 2 entries,
but `compute_persistence` returns an empty frame only when the effective
ordering is empty (no exams at all); with exactly one effective exam it
returns one record per rubric item, each with `repeated = 0` and
`persistence_rate = 0`, without raising. -/
theorem C2_persistence_insufficient_exams :
    (∀ (rows : List Row) (o : Option (List String)),
      effOrder rows o = [] → persistCore rows o = []) ∧
    (∀ (rows : List Row) (o : Option (List String)) (first : String),
      effOrder rows o = [first] →
        ∀ rec ∈ persistCore rows o, rec.repeated = 0 ∧ rec.persistence_rate = 0) ∧
    (∀ (crows : List CRow) (eo : List String),
      (eo.filter (fun e => e ∈ dedupFirst
          (((crows.map (fun r => { r with concept := pstrip r.concept })).filter
            (fun r => r.concept ≠ "")).map (fun r => r.exam_id)))).length < 2 →
        concept_persistence crows eo = []) := by
  refine ⟨?_, ?_, ?_⟩
  · intro rows o h
    unfold persistCore
    rw [h]
  · intro rows o first h rec hrec
    unfold persistCore at hrec
    rw [h] at hrec
    rcases List.mem_map.mp hrec with ⟨item, _, hitem⟩
    subst hitem
    unfold persistRecord
    simp only [List.drop_succ_cons, List.drop_nil, ne_eq, not_true_eq_false,
      if_false, List.map_nil]
    constructor
    · rfl
    · show (if _ = 0 then (0 : Rat) else _ / _) = 0
      split
      · rfl
      · exact zero_div _
  · intro crows eo hlt
    unfold concept_persistence
    split_ifs with h1
    · rfl
    · show (if ((crows.map (fun r => { r with concept := pstrip r.concept })).filter
          (fun r => r.concept ≠ "")) = [] then ([] : List CPersist) else _) = []
      split_ifs with h2
      · rfl
      · show (if (eo.filter (fun e => e ∈ dedupFirst
            (((crows.map (fun r => { r with concept := pstrip r.concept })).filter
              (fun r => r.concept ≠ "")).map (fun r => r.exam_id)))).length < 2
            then ([] : List CPersist) else _) = []
        rw [if_pos hlt]

/-- Witness for C2: the amended behavior on an empty table, a one-exam
table, and a one-exam concept table. -/
theorem C2_persistence_insufficient_exams_witness :
    persistCore ([] : List Row) none = [] ∧
    (∀ rec ∈ persistCore [mkRow "s1" "E1" "Q1" "A" 1] none,
      rec.repeated = 0 ∧ rec.persistence_rate = 0) ∧
    concept_persistence ([⟨"s1", "E1", 1, "X"⟩] : List CRow) ["E1"] = [] :=
  ⟨C2_persistence_insufficient_exams.1 [] none (by decide),
   C2_persistence_insufficient_exams.2.1 [mkRow "s1" "E1" "Q1" "A" 1] none "E1"
     (by decide),
   C2_persistence_insufficient_exams.2.2 _ _ (by decide)⟩

theorem mem_dedupAux {α : Type} [DecidableEq α] (l seen : List α) (x : α) :
    x ∈ dedupAux seen l ↔ x ∈ l ∧ x ∉ seen := by
  induction l generalizing seen with
  | nil => simp [dedupAux]
  | cons y ys ih =>
    unfold dedupAux
    by_cases hy : y ∈ seen
    · rw [if_pos hy, ih]
      constructor
      · rintro ⟨hm, hs⟩
        exact ⟨List.mem_cons_of_mem y hm, hs⟩
      · rintro ⟨hm, hs⟩
        rcases List.mem_cons.mp hm with rfl | hm2
        · exact absurd hy hs
        · exact ⟨hm2, hs⟩
    · rw [if_neg hy]
      simp only [List.mem_cons, ih, List.mem_cons]
      constructor
      · rintro (rfl | ⟨hm, hs⟩)
        · exact ⟨Or.inl rfl, hy⟩
        · exact ⟨Or.inr hm, fun hx => hs (Or.inr hx)⟩
      · rintro ⟨rfl | hm, hs⟩
        · exact Or.inl rfl
        · by_cases hxy : x = y
          · exact Or.inl hxy
          · exact Or.inr ⟨hm, fun hx => by
              rcases hx with h1 | h2
              · exact hxy h1
              · exact hs h2⟩

theorem nodup_dedupAux {α : Type} [DecidableEq α] (l seen : List α) :
    (dedupAux seen l).Nodup := by
  induction l generalizing seen with
  | nil => simp [dedupAux]
  | cons y ys ih =>
    unfold dedupAux
    by_cases hy : y ∈ seen
    · rw [if_pos hy]
      exact ih seen
    · rw [if_neg hy]
      refine List.Nodup.cons ?_ (ih (y :: seen))
      intro hmem
      exact ((mem_dedupAux ys (y :: seen) y).mp hmem).2 (List.mem_cons_self y seen)

theorem mem_dedupFirst {α : Type} [DecidableEq α] (l : List α) (x : α) :
    x ∈ dedupFirst l ↔ x ∈ l := by
  unfold dedupFirst
  rw [mem_dedupAux]
  simp

theorem nodup_dedupFirst {α : Type} [DecidableEq α] (l : List α) :
    (dedupFirst l).Nodup := nodup_dedupAux l []

theorem toFinset_dedupFirst {α : Type} [DecidableEq α] (l : List α) :
    (dedupFirst l).toFinset = l.toFinset := by
  ext x
  simp [mem_dedupFirst]

/-- The number of distinct elements kept by first-occurrence deduplication. -/
theorem length_dedupFirst {α : Type} [DecidableEq α] (l : List α) :
    (dedupFirst l).length = l.toFinset.card := by
  rw [← toFinset_dedupFirst, List.toFinset_card_of_nodup (nodup_dedupFirst l)]

/-- The rank fold either never fires (yielding its accumulator) or yields
the index of some matching entry. -/
theorem foldl_rank_cases (x : String) (L : List (Nat × String)) (acc : Int) :
    (L.foldl (fun a p => if p.2 = x then (p.1 : Int) else a) acc = acc ∧
      ∀ p ∈ L, p.2 ≠ x) ∨
    (∃ p ∈ L, p.2 = x ∧
      L.foldl (fun a p => if p.2 = x then (p.1 : Int) else a) acc = p.1) := by
  induction L generalizing acc with
  | nil => exact Or.inl ⟨rfl, by simp⟩
  | cons q L ih =>
    rcases ih (if q.2 = x then (q.1 : Int) else acc) with ⟨heq, hall⟩ | ⟨p, hp, hpx, hpe⟩
    · by_cases hq : q.2 = x
      · refine Or.inr ⟨q, List.mem_cons_self q L, hq, ?_⟩
        rw [List.foldl_cons, heq, if_pos hq]
      · refine Or.inl ⟨?_, ?_⟩
        · rw [List.foldl_cons, heq, if_neg hq]
        · intro p hp
          rcases List.mem_cons.mp hp with rfl | hp2
          · exact hq
          · exact hall p hp2
    · exact Or.inr ⟨p, List.mem_cons_of_mem q hp, hpx, by rw [List.foldl_cons]; exact hpe⟩


/-- Under a duplicate-free ordering, a positive rank is exactly membership
in the tail of the ordering. -/
theorem examRank_pos_iff (first : String) (rest : List String) (x : String)
    (hnodup : (first :: rest).Nodup) :
    examRank (first :: rest) x > 0 ↔ x ∈ rest := by
  unfold examRank
  rcases foldl_rank_cases x (first :: rest).enum (-1) with ⟨heq, hall⟩ | ⟨p, hp, hpx, hpe⟩
  · rw [heq]
    constructor
    · intro h
      norm_num at h
    · intro hx
      obtain ⟨i, hi⟩ := List.mem_iff_get?.mp hx
      have hmem : (i + 1, x) ∈ (first :: rest).enum := by
        rw [List.mk_mem_enum_iff_get?]
        simpa using hi
      exact absurd rfl (hall _ hmem)
  · rw [hpe]
    obtain ⟨j, y⟩ := p
    simp only at hpx
    obtain rfl := hpx
    have hj : (first :: rest).get? j = some y := List.mk_mem_enum_iff_get?.mp hp
    constructor
    · intro hpos
      rcases j with _ | k
      · simp at hpos
      · have : rest.get? k = some y := by simpa using hj
        exact List.get?_mem this
    · intro hx
      by_cases hj0 : j = 0
      · subst hj0
        simp only [List.get?_cons_zero, Option.some.injEq] at hj
        subst hj
        exact absurd hx (List.nodup_cons.mp hnodup).1
      · have h2 : 0 < j := Nat.pos_of_ne_zero hj0
        simp only []
        exact_mod_cast h2

/-- Filtering twice is filtering by the conjunction. -/
theorem filter_filter_decide {α : Type} (l : List α) (P Q : α → Prop)
    [DecidablePred P] [DecidablePred Q] :
    (l.filter (fun a => decide (P a))).filter (fun a => decide (Q a)) =
      l.filter (fun a => decide (P a ∧ Q a)) := by
  rw [List.filter_filter]
  apply List.filter_congr
  intro a _
  by_cases hP : P a <;> by_cases hQ : Q a <;> simp [hP, hQ]

theorem persistRecord_rubric_item (rows : List Row) (ol : List String)
    (first item : String) :
    (persistRecord rows ol first item).rubric_item = item := rfl

theorem persistRecord_cohort_size (rows : List Row) (ol : List String)
    (first item : String) :
    (persistRecord rows ol first item).cohort_size =
      (dedupFirst (((rows.filter (fun r => decide (r.rubric_item = item))).filter
        (fun r => decide (r.exam_id = first))).map (fun r => r.student_id))).length := rfl

theorem persistRecord_repeated (rows : List Row) (ol : List String)
    (first item : String) :
    (persistRecord rows ol first item).repeated =
      ((dedupFirst ((if ol.drop 1 ≠ [] then
          (rows.filter (fun r => decide (r.rubric_item = item))).filter
            (fun r => decide (examRank ol r.exam_id > 0))
        else []).map (fun r => r.student_id))).filter
        (fun s => decide (s ∈ dedupFirst (((rows.filter (fun r =>
          decide (r.rubric_item = item))).filter
            (fun r => decide (r.exam_id = first))).map
              (fun r => r.student_id))))).length := rfl

theorem persistRecord_rate (rows : List Row) (ol : List String)
    (first item : String) :
    (persistRecord rows ol first item).persistence_rate =
      if (persistRecord rows ol first item).cohort_size = 0 then 0
      else ((persistRecord rows ol first item).repeated : Rat) /
        ((persistRecord rows ol first item).cohort_size : Rat) := rfl

theorem persistRecord_spec (rows : List Row) (first : String) (rest : List String)
    (hnodup : (first :: rest).Nodup) (item : String) :
    (persistRecord rows (first :: rest) first item).cohort_size =
      (cohortSet rows first item).card ∧
    (persistRecord rows (first :: rest) first item).repeated =
      (laterSet rows (first :: rest) item ∩ cohortSet rows first item).card := by
  have hcohList : ((rows.filter (fun r => decide (r.rubric_item = item))).filter
        (fun r => decide (r.exam_id = first))) =
      rows.filter (fun r => decide (r.rubric_item = item ∧ r.exam_id = first)) :=
    filter_filter_decide rows _ _
  have hcoh : (persistRecord rows (first :: rest) first item).cohort_size =
      (cohortSet rows first item).card := by
    rw [persistRecord_cohort_size, hcohList, length_dedupFirst]
    rfl
  refine ⟨hcoh, ?_⟩
  rw [persistRecord_repeated, hcohList]
  rcases rest with _ | ⟨y, ys⟩
  · rw [if_neg (by simp)]
    have hlater : laterSet rows [first] item = ∅ := by
      unfold laterSet
      simp
    rw [hlater]
    simp [dedupFirst, dedupAux]
  · rw [if_pos (by simp)]
    have hlaterList : ((rows.filter (fun r => decide (r.rubric_item = item))).filter
          (fun r => decide (examRank (first :: y :: ys) r.exam_id > 0))) =
        rows.filter (fun r => decide (r.rubric_item = item ∧
          r.exam_id ∈ (first :: y :: ys).drop 1)) := by
      rw [filter_filter_decide]
      apply List.filter_congr
      intro r _
      apply decide_eq_decide.mpr
      constructor
      · rintro ⟨h1, h2⟩
        exact ⟨h1, (examRank_pos_iff first (y :: ys) r.exam_id hnodup).mp h2⟩
      · rintro ⟨h1, h2⟩
        exact ⟨h1, (examRank_pos_iff first (y :: ys) r.exam_id hnodup).mpr h2⟩
    rw [hlaterList]
    have hnd : (dedupFirst ((rows.filter (fun r => decide (r.rubric_item = item ∧
        r.exam_id ∈ (first :: y :: ys).drop 1))).map (fun r => r.student_id))).Nodup :=
      nodup_dedupFirst _
    rw [← List.toFinset_card_of_nodup (hnd.filter _), List.toFinset_filter,
      toFinset_dedupFirst]
    congr 1
    rw [show ((rows.filter (fun r => decide (r.rubric_item = item ∧
        r.exam_id ∈ (first :: y :: ys).drop 1))).map (fun r => r.student_id)).toFinset =
      laterSet rows (first :: y :: ys) item from rfl]
    rw [show Finset.filter (fun s => (decide (s ∈ dedupFirst ((rows.filter
        (fun r => decide (r.rubric_item = item ∧ r.exam_id = first))).map
          (fun r => r.student_id)))) = true) (laterSet rows (first :: y :: ys) item) =
        Finset.filter (fun s => s ∈ cohortSet rows first item)
          (laterSet rows (first :: y :: ys) item) from by
      apply Finset.filter_congr
      intro s _
      rw [show (s ∈ cohortSet rows first item) = ((s ∈ cohortSet rows first item) = True) from by simp]
      simp only [decide_eq_true_eq, mem_dedupFirst]
      unfold cohortSet
      simp]
    exact Finset.filter_mem_eq_inter

/-- C1: on the six-row scenario table with exam_order = [E1, E2],
`compute_persistence` reports cohort 2 / repeated 1 / rate 0.5 for item A and
cohort 1 / repeated 1 / rate 1.0 for item B; and in general, for any table
and any effective ordering without duplicate exams, each record's cohort is
the set of distinct students with a row for the item on the first exam,
repeated counts the cohort members that also incur the item on a later exam
of the ordering, and the rate is repeated/cohort (0 on an empty cohort). -/
theorem C1_persistence_scenario_and_characterization :
    compute_persistence scenarioFrame (some ["E1", "E2"]) =
      .ok [{ rubric_item := "A", cohort_size := 2, repeated := 1,
             persistence_rate := 1 / 2 },
           { rubric_item := "B", cohort_size := 1, repeated := 1,
             persistence_rate := 1 }] ∧
    ∀ (rows : List Row) (o : Option (List String)) (first : String)
      (rest : List String),
      effOrder rows o = first :: rest → (first :: rest).Nodup →
        ((persistCore rows o).map (fun rec => rec.rubric_item) =
          sortStr (dedupFirst (rows.map (fun r => r.rubric_item)))) ∧
        ∀ rec ∈ persistCore rows o,
          rec.cohort_size = (cohortSet rows first rec.rubric_item).card ∧
          rec.repeated = (laterSet rows (first :: rest) rec.rubric_item ∩
            cohortSet rows first rec.rubric_item).card ∧
          rec.persistence_rate = (if rec.cohort_size = 0 then (0 : Rat)
            else (rec.repeated : Rat) / (rec.cohort_size : Rat)) := by
  constructor
  · decide
  · intro rows o first rest ho hnodup
    have hcore : persistCore rows o =
        (sortStr (dedupFirst (rows.map (fun r => r.rubric_item)))).map
          (persistRecord rows (first :: rest) first) := by
      unfold persistCore
      rw [ho]
    constructor
    · rw [hcore, List.map_map]
      have : (fun rec => PRow.rubric_item rec) ∘ persistRecord rows (first :: rest) first =
          fun item => item := by
        funext item
        exact persistRecord_rubric_item rows (first :: rest) first item
      rw [this]
      exact List.map_id _
    · intro rec hrec
      rw [hcore] at hrec
      rcases List.mem_map.mp hrec with ⟨item, _, rfl⟩
      have hspec := persistRecord_spec rows first rest hnodup item
      rw [persistRecord_rubric_item]
      exact ⟨hspec.1, hspec.2, persistRecord_rate rows (first :: rest) first item⟩

/-- Witness for C1: the characterization applied to the scenario table with
the explicit ordering [E1, E2]. -/
theorem C1_persistence_scenario_witness :
    ((persistCore scenarioRows (some ["E1", "E2"])).map (fun rec => rec.rubric_item) =
      sortStr (dedupFirst (scenarioRows.map (fun r => r.rubric_item)))) ∧
    ∀ rec ∈ persistCore scenarioRows (some ["E1", "E2"]),
      rec.cohort_size = (cohortSet scenarioRows "E1" rec.rubric_item).card ∧
      rec.repeated = (laterSet scenarioRows ["E1", "E2"] rec.rubric_item ∩
        cohortSet scenarioRows "E1" rec.rubric_item).card ∧
      rec.persistence_rate = (if rec.cohort_size = 0 then (0 : Rat)
        else (rec.repeated : Rat) / (rec.cohort_size : Rat)) :=
  C1_persistence_scenario_and_characterization.2 scenarioRows (some ["E1", "E2"])
    "E1" ["E2"] (by decide) (by decide)

/-- A guard chain raises exactly when its condition or its continuation
raises. -/
theorem isError_guardE_bind {γ : Type} (b : Bool) (msg : String)
    (rest : Unit → Except String γ) :
    isError (guardE b msg >>= rest) = (b || isError (rest ())) := by
  cases b <;> rfl

theorem guardE_bind_ok_inv {γ : Type} (b : Bool) (msg : String)
    (rest : Unit → Except String γ) (v : γ)
    (h : (guardE b msg >>= rest) = .ok v) : b = false ∧ rest () = .ok v := by
  cases b
  · exact ⟨rfl, h⟩
  · cases h

/-- C5: normalization is fail-closed.  `apply_mapping` raises whenever a
declared (truthy) source column is absent from the input, a required field is
blank after trimming, or any `points_lost` value is non-numeric or negative;
`ensure_canonical_columns` raises under the analogous conditions on a
declared-canonical table; and a `points_lost` value "-1" makes
`ensure_canonical_columns` raise the error "points_lost must be non-negative",
which mentions points_lost. -/
theorem C5_normalization_fail_closed :
    (∀ (df : PFrame) (m : MappingConfig),
      ((∃ c ∈ declaredSources m, c ∉ df.cols) ∨
       (∃ r ∈ df.rows, pstrip (valToStr (r m.student_id)) = "" ∨
          pstrip (valToStr (r m.exam_id)) = "" ∨
          pstrip (valToStr (r m.question_id)) = "" ∨
          pstrip (valToStr (r m.rubric_item)) = "") ∨
       (∃ r ∈ df.rows, toNum (r m.points_lost) = none ∨
          ∃ q, toNum (r m.points_lost) = some q ∧ q < 0)) →
      isError (apply_mapping df m) = true) ∧
    (∀ df : PFrame,
      ((∃ c ∈ REQUIRED_CANONICAL, c ∉ df.cols) ∨
       (∃ r ∈ df.rows, pstrip (valToStr (cellOr df r "student_id")) = "" ∨
          pstrip (valToStr (cellOr df r "exam_id")) = "" ∨
          pstrip (valToStr (cellOr df r "question_id")) = "" ∨
          pstrip (valToStr (cellOr df r "rubric_item")) = "") ∨
       (∃ r ∈ df.rows, toNum (cellOr df r "points_lost") = none ∨
          ∃ q, toNum (cellOr df r "points_lost") = some q ∧ q < 0)) →
      isError (ensure_canonical_columns df) = true) ∧
    ensure_canonical_columns negOneFrame =
      .error "points_lost must be non-negative" ∧
    mentionsStr "points_lost must be non-negative" "points_lost" = true := by
  refine ⟨?_, ?_, by decide, by decide⟩
  · intro df m hyp
    unfold apply_mapping
    simp only [isError_guardE_bind]
    rcases hyp with ⟨c, hc, hcn⟩ | ⟨r, hr, hb⟩ | ⟨r, hr, hb⟩
    · have h1 : (decide (List.filter (fun c => decide (c ∉ df.cols))
          (declaredSources m) ≠ [])) = true := by
        simp only [decide_eq_true_eq]
        exact List.ne_nil_of_mem (List.mem_filter.mpr ⟨hc, by simpa using hcn⟩)
      simp only [h1, Bool.true_or]
    · rcases hb with hb | hb | hb | hb
      · have hany : ((df.rows.map (fun r => pstrip (valToStr (r m.student_id)))).any
            (fun s => decide (s = ""))) = true :=
          List.any_eq_true.mpr ⟨pstrip (valToStr (r m.student_id)),
            List.mem_map_of_mem _ hr, by rw [hb]; rfl⟩
        simp only [hany, Bool.true_or, Bool.or_true]
      · have hany : ((df.rows.map (fun r => pstrip (valToStr (r m.exam_id)))).any
            (fun s => decide (s = ""))) = true :=
          List.any_eq_true.mpr ⟨pstrip (valToStr (r m.exam_id)),
            List.mem_map_of_mem _ hr, by rw [hb]; rfl⟩
        simp only [hany, Bool.true_or, Bool.or_true]
      · have hany : ((df.rows.map (fun r => pstrip (valToStr (r m.question_id)))).any
            (fun s => decide (s = ""))) = true :=
          List.any_eq_true.mpr ⟨pstrip (valToStr (r m.question_id)),
            List.mem_map_of_mem _ hr, by rw [hb]; rfl⟩
        simp only [hany, Bool.true_or, Bool.or_true]
      · have hany : ((df.rows.map (fun r =>
            collapseWS (pstrip (valToStr (r m.rubric_item))))).any
            (fun s => decide (s = ""))) = true :=
          List.any_eq_true.mpr ⟨collapseWS (pstrip (valToStr (r m.rubric_item))),
            List.mem_map_of_mem _ hr, by rw [hb]; rfl⟩
        simp only [hany, Bool.true_or, Bool.or_true]
    · rcases hb with hb | ⟨q, hq, hqneg⟩
      · have hany : ((df.rows.map (fun r => toNum (r m.points_lost))).any
            Option.isNone) = true :=
          List.any_eq_true.mpr ⟨toNum (r m.points_lost),
            List.mem_map_of_mem _ hr, by rw [hb]; rfl⟩
        simp only [hany, Bool.true_or, Bool.or_true]
      · have hany : ((df.rows.map (fun r => toNum (r m.points_lost))).any
            ptsNeg) = true :=
          List.any_eq_true.mpr ⟨toNum (r m.points_lost),
            List.mem_map_of_mem _ hr, by rw [hq]; simpa [ptsNeg] using hqneg⟩
        simp only [hany, Bool.true_or, Bool.or_true]
  · intro df hyp
    unfold ensure_canonical_columns
    simp only [isError_guardE_bind]
    rcases hyp with ⟨c, hc, hcn⟩ | ⟨r, hr, hb⟩ | ⟨r, hr, hb⟩
    · have h1 : (decide (List.filter (fun c => decide (c ∉ df.cols))
          REQUIRED_CANONICAL ≠ [])) = true := by
        simp only [decide_eq_true_eq]
        exact List.ne_nil_of_mem (List.mem_filter.mpr ⟨hc, by simpa using hcn⟩)
      simp only [h1, Bool.true_or]
    · rcases hb with hb | hb | hb | hb
      · have hany : ((idColVals df "student_id").any (fun s => decide (s = ""))) = true :=
          List.any_eq_true.mpr ⟨pstrip (valToStr (cellOr df r "student_id")),
            List.mem_map_of_mem _ hr, by rw [hb]; rfl⟩
        simp only [hany, Bool.true_or, Bool.or_true]
      · have hany : ((idColVals df "exam_id").any (fun s => decide (s = ""))) = true :=
          List.any_eq_true.mpr ⟨pstrip (valToStr (cellOr df r "exam_id")),
            List.mem_map_of_mem _ hr, by rw [hb]; rfl⟩
        simp only [hany, Bool.true_or, Bool.or_true]
      · have hany : ((idColVals df "question_id").any (fun s => decide (s = ""))) = true :=
          List.any_eq_true.mpr ⟨pstrip (valToStr (cellOr df r "question_id")),
            List.mem_map_of_mem _ hr, by rw [hb]; rfl⟩
        simp only [hany, Bool.true_or, Bool.or_true]
      · have hany : ((idColVals df "rubric_item").any (fun s => decide (s = ""))) = true :=
          List.any_eq_true.mpr ⟨pstrip (valToStr (cellOr df r "rubric_item")),
            List.mem_map_of_mem _ hr, by rw [hb]; rfl⟩
        simp only [hany, Bool.true_or, Bool.or_true]
    · rcases hb with hb | ⟨q, hq, hqneg⟩
      · have hany : ((ptsVals df).any Option.isNone) = true :=
          List.any_eq_true.mpr ⟨toNum (cellOr df r "points_lost"),
            List.mem_map_of_mem _ hr, by rw [hb]; rfl⟩
        simp only [hany, Bool.true_or, Bool.or_true]
      · have hany : ((ptsVals df).any ptsNeg) = true :=
          List.any_eq_true.mpr ⟨toNum (cellOr df r "points_lost"),
            List.mem_map_of_mem _ hr, by rw [hq]; simpa [ptsNeg] using hqneg⟩
        simp only [hany, Bool.true_or, Bool.or_true]

/-- Witness for C5: a config naming a missing source column is rejected, and
the "-1" declared-canonical table is rejected. -/
theorem C5_normalization_fail_closed_witness :
    isError (apply_mapping oneExamFrame
      { student_id := "sid", exam_id := "exam_id", question_id := "question_id",
        rubric_item := "rubric_item", points_lost := "points_lost" }) = true ∧
    isError (ensure_canonical_columns negOneFrame) = true :=
  ⟨C5_normalization_fail_closed.1 oneExamFrame _
      (Or.inl ⟨"sid", by decide, by decide⟩),
   C5_normalization_fail_closed.2.1 negOneFrame
      (Or.inr (Or.inr ⟨canonCells "u1" "ExamB" "Q1" "Bad" (.str "-1"),
        List.mem_singleton.mpr rfl,
        Or.inr ⟨-1, by decide, by decide⟩⟩))⟩

/-- A false guard lets the chain continue. -/
theorem guardE_false_bind {γ : Type} (b : Bool) (msg : String)
    (rest : Unit → Except String γ) (h : b = false) :
    (guardE b msg >>= rest) = rest () := by
  subst h
  rfl

set_option maxHeartbeats 1000000 in
/-- C8: `ensure_canonical_columns` is idempotent: re-normalizing a table it
accepted returns the same normalized rows, value for value. -/
theorem C8_ensure_canonical_columns_idempotent (df : PFrame) (out : List Row)
    (h : ensure_canonical_columns df = .ok out) :
    ensure_canonical_columns (framePF out) = .ok out := by
  unfold ensure_canonical_columns at h
  obtain ⟨hb1, h⟩ := guardE_bind_ok_inv _ _ _ _ h
  obtain ⟨hb2, h⟩ := guardE_bind_ok_inv _ _ _ _ h
  obtain ⟨hb3, h⟩ := guardE_bind_ok_inv _ _ _ _ h
  obtain ⟨hb4, h⟩ := guardE_bind_ok_inv _ _ _ _ h
  obtain ⟨hb5, h⟩ := guardE_bind_ok_inv _ _ _ _ h
  obtain ⟨hb6, h⟩ := guardE_bind_ok_inv _ _ _ _ h
  obtain ⟨hb7, h⟩ := guardE_bind_ok_inv _ _ _ _ h
  have hout : df.rows.map (ensuredRow df) = out := by
    exact Except.ok.inj h
  have hidc : ∀ (c : String) (f : (String → Val) → String),
      (∀ r, pstrip (valToStr (cellOr (framePF out) (rowCells (ensuredRow df r)) c)) =
        pstrip (pstrip (f r))) →
      ((df.rows.map (fun r => pstrip (f r))).any (fun s => decide (s = ""))) = false →
      (idColVals (framePF out) c).any (fun s => decide (s = "")) = false := by
    intro c f hc hfalse
    unfold idColVals
    rw [← hout]
    have hlist : (((df.rows.map (ensuredRow df)).map rowCells)).map
        (fun r => pstrip (valToStr (cellOr (framePF out) r c))) =
        df.rows.map (fun r => pstrip (f r)) := by
      rw [List.map_map, List.map_map]
      apply List.map_congr_left
      intro r _
      show pstrip (valToStr (cellOr (framePF out) (rowCells (ensuredRow df r)) c)) =
        pstrip (f r)
      exact (hc r).trans (pstrip_idem (f r))
    show ((((df.rows.map (ensuredRow df)).map rowCells)).map
        (fun r => pstrip (valToStr (cellOr (framePF out) r c)))).any
      (fun s => decide (s = "")) = false
    rw [hlist]
    exact hfalse
  unfold ensure_canonical_columns
  rw [guardE_false_bind _ _ _ (by rfl)]
  rw [guardE_false_bind _ _ _ (hidc "student_id"
    (fun r => valToStr (cellOr df r "student_id"))
    (fun r => by
      simp [framePF, cellOr, rowCells, ensuredRow, valToStr, CANONICAL_COLUMNS])
    hb2)]
  rw [guardE_false_bind _ _ _ (hidc "exam_id"
    (fun r => valToStr (cellOr df r "exam_id"))
    (fun r => by
      simp [framePF, cellOr, rowCells, ensuredRow, valToStr, CANONICAL_COLUMNS])
    hb3)]
  rw [guardE_false_bind _ _ _ (hidc "question_id"
    (fun r => valToStr (cellOr df r "question_id"))
    (fun r => by
      simp [framePF, cellOr, rowCells, ensuredRow, valToStr, CANONICAL_COLUMNS])
    hb4)]
  rw [guardE_false_bind _ _ _ (hidc "rubric_item"
    (fun r => valToStr (cellOr df r "rubric_item"))
    (fun r => by
      simp [framePF, cellOr, rowCells, ensuredRow, valToStr, CANONICAL_COLUMNS])
    hb5)]
  have hpts : ptsVals (framePF out) = out.map (fun s => some s.points_lost) := by
    unfold ptsVals
    show (out.map rowCells).map _ = _
    rw [List.map_map]
    apply List.map_congr_left
    intro s _
    simp [framePF, cellOr, rowCells, toNum, CANONICAL_COLUMNS]
  have hnone : ∀ r ∈ df.rows, ∃ q, toNum (cellOr df r "points_lost") = some q := by
    intro r hr
    have := List.any_eq_false.mp hb6 _ (List.mem_map_of_mem _ hr)
    rcases htn : toNum (cellOr df r "points_lost") with _ | q
    · rw [htn] at this
      simp at this
    · exact ⟨q, rfl⟩
  rw [guardE_false_bind _ _ _ (by
    rw [hpts]
    apply List.any_eq_false.mpr
    intro x hx
    rcases List.mem_map.mp hx with ⟨s, _, rfl⟩
    simp)]
  rw [guardE_false_bind _ _ _ (by
    rw [hpts, ← hout, List.map_map]
    apply List.any_eq_false.mpr
    intro x hx
    rcases List.mem_map.mp hx with ⟨r, hr, rfl⟩
    obtain ⟨q, hq⟩ := hnone r hr
    have hneg := List.any_eq_false.mp hb7 _ (List.mem_map_of_mem _ hr)
    simp only [Function.comp_apply, ensuredRow, hq, Option.getD_some, ptsNeg]
    rw [hq] at hneg
    simpa [ptsNeg] using hneg)]
  show Except.ok ((out.map rowCells).map (ensuredRow (framePF out))) = Except.ok out
  congr 1
  rw [List.map_map]
  rw [← hout, List.map_map]
  apply List.map_congr_left
  intro r hr
  obtain ⟨q, hq⟩ := hnone r hr
  show ensuredRow (framePF out) (rowCells (ensuredRow df r)) = ensuredRow df r
  simp [framePF, cellOr, rowCells, ensuredRow, valToStr, toNum, fillnaStr,
    CANONICAL_COLUMNS, pstrip_idem, hq]

/-- Witness for C8: re-normalizing the normalized one-row table returns it
unchanged. -/
theorem C8_ensure_canonical_columns_idempotent_witness :
    ensure_canonical_columns (framePF [mkRow "s1" "E1" "Q1" "A" 1]) =
      .ok [mkRow "s1" "E1" "Q1" "A" 1] :=
  C8_ensure_canonical_columns_idempotent oneExamFrame
    [mkRow "s1" "E1" "Q1" "A" 1] (by decide)

section UnionFindTheory

variable {α : Type} [DecidableEq α]

theorem iterate_fixed_of_root (p : α → α) (r : α) (hr : p r = r) (n : Nat) :
    p^[n] r = r := by
  induction n with
  | zero => rfl
  | succ m ih => rw [Function.iterate_succ_apply', ih, hr]

theorem reaches_unique (p : α → α) (x r s : α)
    (h1 : Reaches p x r) (h2 : Reaches p x s) : r = s := by
  obtain ⟨⟨n, hn⟩, hr⟩ := h1
  obtain ⟨⟨m, hm⟩, hs⟩ := h2
  rcases Nat.le_total n m with hle | hle
  · obtain ⟨d, rfl⟩ := Nat.exists_eq_add_of_le hle
    rw [Nat.add_comm, Function.iterate_add_apply, hn, iterate_fixed_of_root p r hr] at hm
    exact hm.symm ▸ rfl
  · obtain ⟨d, rfl⟩ := Nat.exists_eq_add_of_le hle
    rw [Nat.add_comm, Function.iterate_add_apply, hm, iterate_fixed_of_root p s hs] at hn
    exact hn ▸ rfl

theorem reaches_of_root (p : α → α) (x : α) (h : p x = x) : Reaches p x x :=
  ⟨⟨0, rfl⟩, h⟩

theorem reaches_step (p : α → α) (x r : α) (h : Reaches p (p x) r) :
    Reaches p x r := by
  obtain ⟨⟨n, hn⟩, hr⟩ := h
  exact ⟨⟨n + 1, by rw [Function.iterate_succ_apply]; exact hn⟩, hr⟩

theorem iterate_mem (p : α → α) (S : Finset α) (x : α) (hx : x ∈ S)
    (hcl : ∀ z, z ∈ S → p z ∈ S) (n : Nat) : p^[n] x ∈ S := by
  induction n with
  | zero => exact hx
  | succ m ih => rw [Function.iterate_succ_apply']; exact hcl _ ih

theorem reaches_mem (p : α → α) (S : Finset α) (x r : α) (hx : x ∈ S)
    (hcl : ∀ z, z ∈ S → p z ∈ S) (h : Reaches p x r) : r ∈ S := by
  obtain ⟨⟨n, hn⟩, _⟩ := h
  exact hn ▸ iterate_mem p S x hx hcl n

/-- Every chain in a well-formed state reaches a root within `S.card`
steps (the chain's nodes before the root are pairwise distinct). -/
theorem chain_bound (S : Finset α) (p : α → α) (hok : UFok S p) (x : α) :
    ∃ n, n ≤ S.card ∧ p (p^[n] x) = p^[n] x := by
  by_cases hx : x ∈ S
  · obtain ⟨r, ⟨⟨n, hn⟩, hr⟩⟩ := hok.2.2 x
    have hex : ∃ k, p (p^[k] x) = p^[k] x := ⟨n, by rw [hn, hr]⟩
    set n0 := Nat.find hex with hn0
    have hP : p (p^[n0] x) = p^[n0] x := Nat.find_spec hex
    refine ⟨n0, ?_, hP⟩
    have hinj : ∀ i j, i < j → j ≤ n0 → p^[i] x ≠ p^[j] x := by
      intro i j hij hjn heq
      have hroot : p (p^[n0 - j + i] x) = p^[n0 - j + i] x := by
        have h1 : p^[n0 - j + i] x = p^[n0] x := by
          have h2 : p^[n0 - j] (p^[i] x) = p^[n0 - j] (p^[j] x) := by rw [heq]
          rw [← Function.iterate_add_apply, ← Function.iterate_add_apply] at h2
          rw [show n0 - j + j = n0 from Nat.sub_add_cancel hjn] at h2
          exact h2
        rw [h1]
        exact hP
      have : n0 ≤ n0 - j + i := Nat.find_min' hex hroot
      omega
    have hcard : n0 + 1 ≤ S.card := by
      have hsub : ∀ i ∈ Finset.range (n0 + 1), p^[i] x ∈ S := by
        intro i _
        exact iterate_mem p S x hx hok.2.1 i
      have hinjOn : ∀ i ∈ Finset.range (n0 + 1), ∀ j ∈ Finset.range (n0 + 1),
          p^[i] x = p^[j] x → i = j := by
        intro i hi j hj heq
        rcases Nat.lt_trichotomy i j with hlt | heqij | hgt
        · exact absurd heq (hinj i j hlt (Nat.lt_succ_iff.mp (Finset.mem_range.mp hj)))
        · exact heqij
        · exact absurd heq.symm (hinj j i hgt (Nat.lt_succ_iff.mp (Finset.mem_range.mp hi)))
      calc n0 + 1 = (Finset.range (n0 + 1)).card := by rw [Finset.card_range]
        _ ≤ S.card := Finset.card_le_card_of_injOn _ hsub hinjOn
    omega
  · exact ⟨0, Nat.zero_le _, by simp [hok.1 x hx]⟩

end UnionFindTheory

section UnionFindTheory2

variable {α : Type} [DecidableEq α]

/-- Iterating an updated map along a chain that avoids the updated point
coincides with the original chain. -/
theorem iterate_update_avoid (p : α → α) (u v : α) (z : α) (m : Nat)
    (havoid : ∀ i, i < m → p^[i] z ≠ u) :
    (Function.update p u v)^[m] z = p^[m] z := by
  induction m with
  | zero => rfl
  | succ k ih =>
    rw [Function.iterate_succ_apply', Function.iterate_succ_apply',
      ih (fun i hi => havoid i (Nat.lt_succ_of_lt hi)),
      Function.update_noteq (havoid k (Nat.lt_succ_self k))]

/-- No chain that terminates at a root revisits its start unless the start
is already a root. -/
theorem no_revisit (p : α → α) (x : α) (hterm : ∃ r, Reaches p x r)
    (hx : p x ≠ x) (k : Nat) (hk : 1 ≤ k) : p^[k] x ≠ x := by
  intro hcycle
  obtain ⟨r, ⟨⟨n, hn⟩, hr⟩⟩ := hterm
  have hper : ∀ m, p^[k * m] x = x := by
    intro m
    induction m with
    | zero => rfl
    | succ j ih =>
      rw [Nat.mul_succ, Function.iterate_add_apply, hcycle, ih]
  have hbig : ∀ N, n ≤ N → p^[N] x = r := by
    intro N hN
    obtain ⟨d, rfl⟩ := Nat.exists_eq_add_of_le hN
    rw [Nat.add_comm, Function.iterate_add_apply, hn, iterate_fixed_of_root p r hr]
  have h1 : p^[k * n + k] x = x := by
    rw [show k * n + k = k * (n + 1) from by ring]
    exact hper (n + 1)
  have h2 : p^[k * n + k] x = r := hbig _ (by nlinarith)
  rw [h1] at h2
  rw [← h2] at hr
  exact hx hr

/-- Path halving preserves every node's root. -/
theorem halve_reaches (p : α → α) (x : α) (hx : p x ≠ x)
    (hterm : ∀ y, ∃ r, Reaches p y r) (y r : α) (h : Reaches p y r) :
    Reaches (Function.update p x (p (p x))) y r := by
  obtain ⟨⟨n, hn⟩, hr⟩ := h
  have hroot2 : Function.update p x (p (p x)) r = r := by
    have hrx : r ≠ x := by
      intro heq
      exact hx (heq ▸ hr)
    rw [Function.update_noteq hrx]
    exact hr
  induction n using Nat.strong_induction_on generalizing y with
  | _ n ih =>
    by_cases hyy : p y = y
    · have : y = r := by
        rw [← hn]
        exact (iterate_fixed_of_root p y hyy n).symm
      subst this
      exact reaches_of_root _ y hroot2
    · rcases n with _ | m
      · have h0 : y = r := by simpa using hn
        subst h0
        exact absurd hr hyy
      · by_cases hyx : y = x
        · subst hyx
          rcases m with _ | m2
          · -- n = 1 : p y is the root r
            have hr1 : p y = r := by simpa using hn
            have : Reaches (Function.update p y (p (p y))) (p (p y)) r :=
              ⟨⟨0, by show p (p y) = r; rw [hr1]; exact hr⟩, hroot2⟩
            refine reaches_step _ y r ?_
            rw [Function.update_same]
            exact this
          · -- n = m2 + 2 : shortcut to the grandparent
            have hn2 : p^[m2] (p (p y)) = r := by
              have : p^[m2 + 1 + 1] y = r := hn
              rw [Function.iterate_succ_apply, Function.iterate_succ_apply] at this
              exact this
            have hrec := ih m2 (by omega) (p (p y)) hn2
            refine reaches_step _ y r ?_
            rw [Function.update_same]
            exact hrec
        · have hn2 : p^[m] (p y) = r := by
            have : p^[m + 1] y = r := hn
            rw [Function.iterate_succ_apply] at this
            exact this
          have hrec := ih m (by omega) (p y) hn2
          refine reaches_step _ y r ?_
          rw [Function.update_noteq hyx]
          exact hrec

end UnionFindTheory2

section UnionFindTheory3

variable {α : Type} [DecidableEq α]

/-- `find` returns the root of its argument, keeps the state well-formed,
and changes no node's root (given enough fuel for the chain). -/
theorem ufFind_spec (S : Finset α) : ∀ (fuel : Nat) (p : α → α) (x : α),
    UFok S p → (∃ n, n ≤ fuel ∧ p (p^[n] x) = p^[n] x) →
    Reaches p x (ufFind fuel p x).2 ∧ UFok S (ufFind fuel p x).1 ∧
    (∀ y r, Reaches (ufFind fuel p x).1 y r ↔ Reaches p y r) := by
  intro fuel
  induction fuel with
  | zero =>
    intro p x hok hfuel
    obtain ⟨n, hn, hroot⟩ := hfuel
    have hn0 : n = 0 := Nat.le_zero.mp hn
    subst hn0
    simp only [Function.iterate_zero_apply] at hroot
    exact ⟨reaches_of_root p x hroot, hok, fun y r => Iff.rfl⟩
  | succ f ih =>
    intro p x hok hfuel
    by_cases hx : p x = x
    · rw [show ufFind (f + 1) p x = (p, x) from by simp [ufFind, hx]]
      exact ⟨reaches_of_root p x hx, hok, fun y r => Iff.rfl⟩
    · have hstep : ufFind (f + 1) p x =
          ufFind f (Function.update p x (p (p x)))
            (Function.update p x (p (p x)) x) := by
        simp [ufFind, hx]
      have hxS : x ∈ S := by
        by_contra hxs
        exact hx (hok.1 x hxs)
      have hp2x : Function.update p x (p (p x)) x = p (p x) :=
        Function.update_same x (p (p x)) p
      have hB2 : ∀ y r, Reaches p y r →
          Reaches (Function.update p x (p (p x))) y r :=
        halve_reaches p x hx hok.2.2
      have hiff : ∀ y r, Reaches (Function.update p x (p (p x))) y r ↔
          Reaches p y r := by
        intro y r
        refine ⟨fun h2 => ?_, hB2 y r⟩
        obtain ⟨r0, hr0⟩ := hok.2.2 y
        have := reaches_unique (Function.update p x (p (p x))) y r r0 h2 (hB2 y r0 hr0)
        exact this ▸ hr0
      have hok2 : UFok S (Function.update p x (p (p x))) := by
        refine ⟨?_, ?_, ?_⟩
        · intro z hz
          have hzx : z ≠ x := fun he => hz (he ▸ hxS)
          rw [Function.update_noteq hzx]
          exact hok.1 z hz
        · intro z hz
          by_cases hzx : z = x
          · subst hzx
            rw [Function.update_same]
            exact hok.2.1 _ (hok.2.1 _ hz)
          · rw [Function.update_noteq hzx]
            exact hok.2.1 z hz
        · intro y
          obtain ⟨r0, hr0⟩ := hok.2.2 y
          exact ⟨r0, hB2 y r0 hr0⟩
      have hfuel2 : ∃ n, n ≤ f ∧
          (Function.update p x (p (p x)))
            ((Function.update p x (p (p x)))^[n]
              (Function.update p x (p (p x)) x)) =
          (Function.update p x (p (p x)))^[n] (Function.update p x (p (p x)) x) := by
        obtain ⟨n, hn, hroot⟩ := hfuel
        have hex : ∃ k, p (p^[k] x) = p^[k] x := ⟨n, hroot⟩
        have hn0le : Nat.find hex ≤ n := Nat.find_min' hex hroot
        have hP0 : p (p^[Nat.find hex] x) = p^[Nat.find hex] x := Nat.find_spec hex
        have hn0pos : 1 ≤ Nat.find hex := by
          rcases Nat.eq_zero_or_pos (Nat.find hex) with h0 | h1
          · rw [h0] at hP0
            simp only [Function.iterate_zero_apply] at hP0
            exact absurd hP0 hx
          · exact h1
        have havoid : ∀ i, p^[i] (p (p x)) ≠ x := by
          intro i
          have : p^[i] (p (p x)) = p^[i + 2] x := by
            rw [show i + 2 = i + 1 + 1 from rfl, Function.iterate_succ_apply,
              Function.iterate_succ_apply]
          rw [this]
          exact no_revisit p x (hok.2.2 x) hx (i + 2) (by omega)
        have hchain : ∀ m, (Function.update p x (p (p x)))^[m] (p (p x)) =
            p^[m] (p (p x)) := by
          intro m
          exact iterate_update_avoid p x (p (p x)) (p (p x)) m
            (fun i _ => havoid i)
        rcases Nat.lt_or_ge (Nat.find hex) 2 with hsmall | hbig
        · -- Nat.find hex = 1 : p x is already a root
          have h1 : Nat.find hex = 1 := by omega
          rw [h1] at hP0
          simp only [Function.iterate_one] at hP0
          refine ⟨0, Nat.zero_le f, ?_⟩
          rw [hp2x]
          simp only [Function.iterate_zero_apply]
          have h00 : p (p x) ≠ x := by simpa using havoid 0
          rw [Function.update_noteq h00]
          exact congrArg p hP0
        · -- Nat.find hex ≥ 2 : shorten the chain by two
          refine ⟨Nat.find hex - 2, by omega, ?_⟩
          rw [hp2x, hchain]
          have hco : p^[Nat.find hex - 2] (p (p x)) = p^[Nat.find hex] x := by
            have : p^[Nat.find hex - 2] (p (p x)) = p^[Nat.find hex - 2 + 2] x := by
              rw [show Nat.find hex - 2 + 2 = Nat.find hex - 2 + 1 + 1 from rfl,
                Function.iterate_succ_apply, Function.iterate_succ_apply]
            rw [this, Nat.sub_add_cancel hbig]
          rw [hco, Function.update_noteq (by
            have := no_revisit p x (hok.2.2 x) hx (Nat.find hex) (by omega)
            exact this)]
          exact hP0
      obtain ⟨hreach2, hok3, hiff3⟩ := ih (Function.update p x (p (p x)))
        (Function.update p x (p (p x)) x) hok2 hfuel2
      rw [hstep]
      refine ⟨?_, hok3, fun y r => (hiff3 y r).trans (hiff y r)⟩
      have hr2 : Reaches (Function.update p x (p (p x))) x
          (ufFind f (Function.update p x (p (p x)))
            (Function.update p x (p (p x)) x)).2 :=
        reaches_step _ x _ hreach2
      exact (hiff x _).mp hr2

end UnionFindTheory3

section UnionFindTheory4

variable {α : Type} [DecidableEq α]

/-- `union` keeps the state well-formed and merges exactly the two root
classes: every old root s is renamed through `if s = ry then rx else s`. -/
theorem ufUnion_spec (S : Finset α) (fuel : Nat) (p : α → α) (x y : α)
    (hok : UFok S p) (hcard : S.card ≤ fuel) (hx : x ∈ S) (hy : y ∈ S) :
    ∃ rx ry, Reaches p x rx ∧ Reaches p y ry ∧
      UFok S (ufUnion fuel p x y) ∧
      (∀ z s, Reaches p z s →
        Reaches (ufUnion fuel p x y) z (if s = ry then rx else s)) := by
  have hfx := ufFind_spec S fuel p x hok (by
    obtain ⟨n, hn, hr⟩ := chain_bound S p hok x
    exact ⟨n, le_trans hn hcard, hr⟩)
  obtain ⟨hrx, hok1, hiff1⟩ := hfx
  have hfy := ufFind_spec S fuel (ufFind fuel p x).1 y hok1 (by
    obtain ⟨n, hn, hr⟩ := chain_bound S (ufFind fuel p x).1 hok1 y
    exact ⟨n, le_trans hn hcard, hr⟩)
  obtain ⟨hry1, hok2, hiff2⟩ := hfy
  set p1 := (ufFind fuel p x).1 with hp1
  set rx := (ufFind fuel p x).2 with hrxd
  set p2 := (ufFind fuel p1 y).1 with hp2
  set ry := (ufFind fuel p1 y).2 with hryd
  have hry : Reaches p y ry := (hiff1 y ry).mp hry1
  have hiff12 : ∀ z s, Reaches p2 z s ↔ Reaches p z s := by
    intro z s
    exact (hiff2 z s).trans (hiff1 z s)
  have hrxroot2 : p2 rx = rx := by
    have h1 : Reaches p2 x rx := (hiff12 x rx).mpr hrx
    exact h1.2
  have hryroot2 : p2 ry = ry := by
    have h1 : Reaches p2 y ry := (hiff12 y ry).mpr hry
    exact h1.2
  have hunion : ufUnion fuel p x y =
      if rx = ry then p2 else Function.update p2 ry rx := by
    unfold ufUnion
    rfl
  refine ⟨rx, ry, hrx, hry, ?_, ?_⟩
  · rw [hunion]
    by_cases heq : rx = ry
    · rw [if_pos heq]
      exact hok2
    · rw [if_neg heq]
      have hryS : ry ∈ S := reaches_mem p S y ry hy hok.2.1 hry
      have hrxS : rx ∈ S := reaches_mem p S x rx hx hok.2.1 hrx
      refine ⟨?_, ?_, ?_⟩
      · intro z hz
        have hzry : z ≠ ry := fun he => hz (he ▸ hryS)
        rw [Function.update_noteq hzry]
        exact hok2.1 z hz
      · intro z hz
        by_cases hzry : z = ry
        · subst hzry
          rw [Function.update_same]
          exact hrxS
        · rw [Function.update_noteq hzry]
          exact hok2.2.1 z hz
      · intro z
        obtain ⟨s, hs⟩ := hok2.2.2 z
        by_cases hsry : s = ry
        · subst hsry
          obtain ⟨⟨n, hn⟩, hroot⟩ := hs
          have hexmin : ∃ i, p2^[i] z = ry := ⟨n, hn⟩
          have hmin := Nat.find_spec hexmin
          have havoid : ∀ i, i < Nat.find hexmin → p2^[i] z ≠ ry :=
            fun i hi => Nat.find_min hexmin hi
          refine ⟨rx, ⟨⟨Nat.find hexmin + 1, ?_⟩, ?_⟩⟩
          · rw [Function.iterate_succ_apply',
              iterate_update_avoid p2 ry rx z (Nat.find hexmin) havoid, hmin,
              Function.update_same]
          · rw [Function.update_noteq heq, hrxroot2]
        · obtain ⟨⟨n, hn⟩, hroot⟩ := hs
          have havoid : ∀ i, i < n → p2^[i] z ≠ ry := by
            intro i hi hcon
            have : p2^[n] z = ry := by
              have hd : p2^[n - i] (p2^[i] z) = p2^[n] z := by
                rw [← Function.iterate_add_apply, Nat.sub_add_cancel (Nat.le_of_lt hi)]
              rw [hcon] at hd
              rw [iterate_fixed_of_root p2 ry hryroot2] at hd
              exact hd.symm
            exact hsry (by rw [← hn, this])
          refine ⟨s, ⟨⟨n, ?_⟩, ?_⟩⟩
          · rw [iterate_update_avoid p2 ry rx z n havoid, hn]
          · have hsry2 : s ≠ ry := hsry
            rw [Function.update_noteq hsry2]
            exact hroot
  · intro z s hzs
    have hzs2 : Reaches p2 z s := (hiff12 z s).mpr hzs
    rw [hunion]
    by_cases heq : rx = ry
    · rw [if_pos heq]
      by_cases hsry : s = ry
      · rw [if_pos hsry, heq]
        rw [hsry] at hzs2
        exact hzs2
      · rw [if_neg hsry]
        exact hzs2
    · rw [if_neg heq]
      obtain ⟨⟨n, hn⟩, hroot⟩ := hzs2
      by_cases hsry : s = ry
      · rw [if_pos hsry]
        rw [hsry] at hn
        have hexmin : ∃ i, p2^[i] z = ry := ⟨n, hn⟩
        have hmin := Nat.find_spec hexmin
        have havoid : ∀ i, i < Nat.find hexmin → p2^[i] z ≠ ry :=
          fun i hi => Nat.find_min hexmin hi
        refine ⟨⟨Nat.find hexmin + 1, ?_⟩, ?_⟩
        · rw [Function.iterate_succ_apply',
            iterate_update_avoid p2 ry rx z (Nat.find hexmin) havoid, hmin,
            Function.update_same]
        · rw [Function.update_noteq heq, hrxroot2]
      · rw [if_neg hsry]
        have havoid : ∀ i, i < n → p2^[i] z ≠ ry := by
          intro i hi hcon
          have : p2^[n] z = ry := by
            have hd : p2^[n - i] (p2^[i] z) = p2^[n] z := by
              rw [← Function.iterate_add_apply, Nat.sub_add_cancel (Nat.le_of_lt hi)]
            rw [hcon] at hd
            rw [iterate_fixed_of_root p2 ry hryroot2] at hd
            exact hd.symm
          exact hsry (by rw [← hn, this])
        refine ⟨⟨n, ?_⟩, ?_⟩
        · rw [iterate_update_avoid p2 ry rx z n havoid, hn]
        · rw [Function.update_noteq hsry]
          exact hroot

end UnionFindTheory4

section UnionFindTheory5

variable {α : Type} [DecidableEq α]

theorem sameRoot_symm (p : α → α) (a b : α) (h : SameRoot p a b) :
    SameRoot p b a := by
  obtain ⟨r, h1, h2⟩ := h
  exact ⟨r, h2, h1⟩

theorem sameRoot_trans (p : α → α) (a b c : α) (h1 : SameRoot p a b)
    (h2 : SameRoot p b c) : SameRoot p a c := by
  obtain ⟨r, ha, hb⟩ := h1
  obtain ⟨s, hb2, hc⟩ := h2
  have := reaches_unique p b r s hb hb2
  subst this
  exact ⟨r, ha, hc⟩

/-- Processing an edge list by `union` keeps the state well-formed, makes
both endpoints of every processed edge share a root, and preserves every
previously shared root. -/
theorem ufUnions_spec (S : Finset α) (fuel : Nat) (hcard : S.card ≤ fuel) :
    ∀ (edges : List (α × α)) (p : α → α), UFok S p →
    (∀ e ∈ edges, e.1 ∈ S ∧ e.2 ∈ S) →
    UFok S (ufUnions fuel p edges) ∧
    (∀ e ∈ edges, SameRoot (ufUnions fuel p edges) e.1 e.2) ∧
    (∀ a b, SameRoot p a b → SameRoot (ufUnions fuel p edges) a b) := by
  intro edges
  induction edges with
  | nil =>
    intro p hok _
    exact ⟨hok, by simp, fun a b h => h⟩
  | cons e rest ih =>
    intro p hok hmem
    obtain ⟨rx, ry, hrx, hry, hokq, hmap⟩ := ufUnion_spec S fuel p e.1 e.2 hok hcard
      (hmem e (List.mem_cons_self e rest)).1 (hmem e (List.mem_cons_self e rest)).2
    have hrest := ih (ufUnion fuel p e.1 e.2) hokq
      (fun e2 he2 => hmem e2 (List.mem_cons_of_mem e he2))
    have hchain : ufUnions fuel p (e :: rest) =
        ufUnions fuel (ufUnion fuel p e.1 e.2) rest := rfl
    rw [hchain]
    refine ⟨hrest.1, ?_, ?_⟩
    · intro e2 he2
      rcases List.mem_cons.mp he2 with rfl | he3
      · -- the processed edge now shares root rx
        have h1 : Reaches (ufUnion fuel p e2.1 e2.2) e2.1
            (if rx = ry then rx else rx) := hmap e2.1 rx hrx
        have h2 : Reaches (ufUnion fuel p e2.1 e2.2) e2.2
            (if ry = ry then rx else ry) := hmap e2.2 ry hry
        simp only [if_pos rfl] at h2
        have h1b : Reaches (ufUnion fuel p e2.1 e2.2) e2.1 rx := by
          by_cases hxy : rx = ry
          · simpa [hxy] using h1
          · simpa [hxy] using h1
        exact hrest.2.2 e2.1 e2.2 ⟨rx, h1b, h2⟩
      · exact hrest.2.1 e2 he3
    · intro a b hab
      obtain ⟨r, hra, hrb⟩ := hab
      exact hrest.2.2 a b ⟨if r = ry then rx else r, hmap a r hra, hmap b r hrb⟩

/-- The cluster-assignment pass records, for every item, a root of that item
in the pass's initial state. -/
theorem ufFindAll_spec (S : Finset α) (fuel : Nat) (hcard : S.card ≤ fuel) :
    ∀ (items : List α) (p : α → α), UFok S p →
    (∀ pr ∈ (ufFindAll fuel p items).2, Reaches p pr.1 pr.2) ∧
    (∀ x ∈ items, ∃ r, (x, r) ∈ (ufFindAll fuel p items).2) := by
  intro items
  induction items with
  | nil =>
    intro p hok
    exact ⟨by simp [ufFindAll], by simp⟩
  | cons x rest ih =>
    intro p hok
    have hfx := ufFind_spec S fuel p x hok (by
      obtain ⟨n, hn, hr⟩ := chain_bound S p hok x
      exact ⟨n, le_trans hn hcard, hr⟩)
    obtain ⟨hreach, hok1, hiff⟩ := hfx
    have hrest := ih (ufFind fuel p x).1 hok1
    have hstep : ufFindAll fuel p (x :: rest) =
        ((ufFindAll fuel (ufFind fuel p x).1 rest).1,
          (x, (ufFind fuel p x).2) ::
            (ufFindAll fuel (ufFind fuel p x).1 rest).2) := rfl
    rw [hstep]
    constructor
    · intro pr hpr
      rcases List.mem_cons.mp hpr with rfl | hpr2
      · exact hreach
      · exact (hiff pr.1 pr.2).mp (hrest.1 pr hpr2)
    · intro z hz
      rcases List.mem_cons.mp hz with rfl | hz2
      · exact ⟨(ufFind fuel p z).2, List.mem_cons_self _ _⟩
      · obtain ⟨r, hr⟩ := hrest.2 z hz2
        exact ⟨r, List.mem_cons_of_mem _ hr⟩

end UnionFindTheory5

theorem mem_insertStr (x y : String) (l : List String) :
    x ∈ insertStr y l ↔ x = y ∨ x ∈ l := by
  induction l with
  | nil => simp [insertStr]
  | cons z zs ih =>
    unfold insertStr
    by_cases hle : strLe y z = true
    · simp [hle]
    · simp only [if_neg hle, List.mem_cons, ih]
      tauto

theorem mem_sortStr (x : String) (l : List String) :
    x ∈ sortStr l ↔ x ∈ l := by
  induction l with
  | nil => simp [sortStr]
  | cons z zs ih =>
    unfold sortStr
    rw [mem_insertStr, ih]
    simp

theorem pairsOf_mem {β : Type} (l : List β) (u v : β)
    (h : (u, v) ∈ pairsOf l) : u ∈ l ∧ v ∈ l := by
  induction l with
  | nil => cases h
  | cons z zs ih =>
    unfold pairsOf at h
    rcases List.mem_append.mp h with h1 | h2
    · rcases List.mem_map.mp h1 with ⟨w, hw, hweq⟩
      obtain ⟨rfl, rfl⟩ := Prod.mk.injEq .. |>.mp hweq
      exact ⟨List.mem_cons_self _ _, List.mem_cons_of_mem _ hw⟩
    · obtain ⟨h1, h2⟩ := ih h2
      exact ⟨List.mem_cons_of_mem _ h1, List.mem_cons_of_mem _ h2⟩

theorem pairsOf_ne {β : Type} (l : List β) (hnd : l.Nodup) (u v : β)
    (h : (u, v) ∈ pairsOf l) : u ≠ v := by
  induction l with
  | nil => cases h
  | cons z zs ih =>
    unfold pairsOf at h
    rcases List.mem_append.mp h with h1 | h2
    · rcases List.mem_map.mp h1 with ⟨w, hw, hweq⟩
      obtain ⟨rfl, rfl⟩ := Prod.mk.injEq .. |>.mp hweq
      intro he
      exact (List.nodup_cons.mp hnd).1 (he ▸ hw)
    · exact ih (List.nodup_cons.mp hnd).2 h2

theorem two_le_length_of_mem_ne {β : Type} (l : List β) (u v : β)
    (hu : u ∈ l) (hv : v ∈ l) (hne : u ≠ v) : 2 ≤ l.length := by
  rcases l with _ | ⟨a, _ | ⟨b, rest⟩⟩
  · cases hu
  · rw [List.mem_singleton] at hu hv
    exact absurd (hu.trans hv.symm) hne
  · simp only [List.length_cons]
    omega

/-- Counting the members of a duplicate-free list that lie in another list
counts the intersection of the underlying sets. -/
theorem length_filter_mem_eq_inter_card (A B : List String) (hA : A.Nodup) :
    ((A.filter (fun s => s ∈ B)).length) = (A.toFinset ∩ B.toFinset).card := by
  rw [← List.toFinset_card_of_nodup (hA.filter _), List.toFinset_filter]
  congr 1
  ext x
  simp [Finset.mem_inter, List.mem_toFinset]

theorem interSize_eq_card (rows : List Row) (a b : String) :
    interSize rows a b = ((incidenceList rows a).toFinset ∩
      (incidenceList rows b).toFinset).card :=
  length_filter_mem_eq_inter_card _ _ (nodup_dedupFirst _)

theorem interSize_comm (rows : List Row) (a b : String) :
    interSize rows a b = interSize rows b a := by
  rw [interSize_eq_card, interSize_eq_card, Finset.inter_comm]

theorem unionSize_eq_card (rows : List Row) (a b : String) :
    unionSize rows a b = ((incidenceList rows a).toFinset ∪
      (incidenceList rows b).toFinset).card := by
  unfold unionSize
  rw [length_dedupFirst, List.toFinset_append]

theorem unionSize_comm (rows : List Row) (a b : String) :
    unionSize rows a b = unionSize rows b a := by
  rw [unionSize_eq_card, unionSize_eq_card, Finset.union_comm]

theorem jaccardOf_comm (rows : List Row) (a b : String) :
    jaccardOf rows a b = jaccardOf rows b a := by
  unfold jaccardOf
  rw [interSize_comm, unionSize_comm]

theorem corrSqOf_comm (rows : List Row) (a b : String) :
    corrSqOf rows a b = corrSqOf rows b a := by
  unfold corrSqOf
  by_cases ha : (incidenceList rows a).length ≠ 0 <;>
    by_cases hb : (incidenceList rows b).length ≠ 0
  · rw [if_pos ⟨ha, hb⟩, if_pos ⟨hb, ha⟩, interSize_comm]
    ring_nf
  · rw [if_neg (by tauto), if_neg (by tauto)]
  · rw [if_neg (by tauto), if_neg (by tauto)]
  · rw [if_neg (by tauto), if_neg (by tauto)]

/-- C9: the jaccard and (squared) correlation similarities are symmetric in
their two rubric items, and clustering is transitive: whenever edges are
drawn between a and b and between b and c (in either orientation of the
combinations enumeration), some emitted cluster contains both a and c, even
with no direct a-c edge. -/
theorem C9_clustering_symmetry_and_transitivity :
    (∀ (rows : List Row) (a b : String),
      jaccardOf rows a b = jaccardOf rows b a ∧
      corrSqOf rows a b = corrSqOf rows b a) ∧
    (∀ (rows : List Row) (jt ct : Rat) (ms : Nat) (a b c : String),
      a ∈ filteredItems rows ms → b ∈ filteredItems rows ms →
      c ∈ filteredItems rows ms →
      ((a, b) ∈ edgesOf rows jt ct ms ∨ (b, a) ∈ edgesOf rows jt ct ms) →
      ((b, c) ∈ edgesOf rows jt ct ms ∨ (c, b) ∈ edgesOf rows jt ct ms) →
      ∃ cl ∈ misconception_clusters rows jt ct ms,
        a ∈ cl.members ∧ c ∈ cl.members) := by
  constructor
  · intro rows a b
    exact ⟨jaccardOf_comm rows a b, corrSqOf_comm rows a b⟩
  · intro rows jt ct ms a b c ha hb hc hab hbc
    have hndItems : (filteredItems rows ms).Nodup := by
      unfold filteredItems
      exact (nodup_dedupFirst _).filter _
    have hneab : a ≠ b := by
      rcases hab with h | h
      · exact pairsOf_ne _ hndItems a b (List.mem_filter.mp h).1
      · exact (pairsOf_ne _ hndItems b a (List.mem_filter.mp h).1).symm
    have hlen : 2 ≤ (filteredItems rows ms).length :=
      two_le_length_of_mem_ne _ a b ha hb hneab
    have hscoped : scopedRows rows ≠ [] := by
      intro hsc
      have hempty : filteredItems rows ms = [] := by
        unfold filteredItems itemsOrder
        rw [hsc]
        rfl
      rw [hempty] at ha
      cases ha
    -- union-find setup over the surviving items
    have hok0 : UFok (filteredItems rows ms).toFinset (fun z => z) :=
      ⟨fun _ _ => rfl, fun x hx => hx, fun x => ⟨x, ⟨⟨0, rfl⟩, rfl⟩⟩⟩
    have hcard : (filteredItems rows ms).toFinset.card ≤
        (filteredItems rows ms).length := List.toFinset_card_le _
    have hedges : ∀ e ∈ edgesOf rows jt ct ms,
        e.1 ∈ (filteredItems rows ms).toFinset ∧
        e.2 ∈ (filteredItems rows ms).toFinset := by
      intro e he
      have := pairsOf_mem _ e.1 e.2 (by
        have := (List.mem_filter.mp he).1
        simpa using this)
      exact ⟨List.mem_toFinset.mpr this.1, List.mem_toFinset.mpr this.2⟩
    have huni := ufUnions_spec (filteredItems rows ms).toFinset
      (filteredItems rows ms).length hcard (edgesOf rows jt ct ms)
      (fun z => z) hok0 hedges
    have hp1 : clusterParent rows jt ct ms =
        ufUnions (filteredItems rows ms).length (fun z => z)
          (edgesOf rows jt ct ms) := rfl
    have hsrab : SameRoot (clusterParent rows jt ct ms) a b := by
      rw [hp1]
      rcases hab with h | h
      · exact huni.2.1 (a, b) h
      · exact sameRoot_symm _ _ _ (huni.2.1 (b, a) h)
    have hsrbc : SameRoot (clusterParent rows jt ct ms) b c := by
      rw [hp1]
      rcases hbc with h | h
      · exact huni.2.1 (b, c) h
      · exact sameRoot_symm _ _ _ (huni.2.1 (c, b) h)
    have hsrac : SameRoot (clusterParent rows jt ct ms) a c :=
      sameRoot_trans _ a b c hsrab hsrbc
    -- the assignment pass
    have hok1 : UFok (filteredItems rows ms).toFinset (clusterParent rows jt ct ms) := by
      rw [hp1]
      exact huni.1
    have hpass := ufFindAll_spec (filteredItems rows ms).toFinset
      (filteredItems rows ms).length hcard (filteredItems rows ms)
      (clusterParent rows jt ct ms) hok1
    obtain ⟨ra, hmema⟩ := hpass.2 a ha
    obtain ⟨rc, hmemc⟩ := hpass.2 c hc
    have hreacha : Reaches (clusterParent rows jt ct ms) a ra := hpass.1 _ hmema
    have hreachc : Reaches (clusterParent rows jt ct ms) c rc := hpass.1 _ hmemc
    have hrarc : ra = rc := by
      obtain ⟨r, hra2, hrc2⟩ := hsrac
      rw [reaches_unique _ a ra r hreacha hra2,
        reaches_unique _ c rc r hreachc hrc2]
    -- the emitted cluster for root ra contains both a and c
    have hroots : ra ∈ dedupFirst ((clusterPass rows jt ct ms).2.map Prod.snd) := by
      rw [mem_dedupFirst]
      exact List.mem_map.mpr ⟨(a, ra), hmema, rfl⟩
    obtain ⟨i, hi⟩ := List.mem_iff_get?.mp hroots
    have hienum : (i, ra) ∈
        (dedupFirst ((clusterPass rows jt ct ms).2.map Prod.snd)).enum :=
      List.mk_mem_enum_iff_get?.mpr hi
    unfold misconception_clusters
    rw [if_neg hscoped, if_neg (by omega)]
    refine ⟨_, List.mem_map_of_mem _ hienum, ?_, ?_⟩
    · show a ∈ sortStr (clusterMembers rows jt ct ms ra)
      rw [mem_sortStr]
      unfold clusterMembers
      exact List.mem_map.mpr ⟨(a, ra),
        List.mem_filter.mpr ⟨hmema, by simp⟩, rfl⟩
    · show c ∈ sortStr (clusterMembers rows jt ct ms ra)
      rw [mem_sortStr]
      unfold clusterMembers
      exact List.mem_map.mpr ⟨(c, rc),
        List.mem_filter.mpr ⟨hmemc, by simp [hrarc]⟩, rfl⟩

/-- Witness for C9: with two students jointly missing items A, B and C, all
three items survive support filtering, the A-B and B-C edges are drawn, and
one cluster contains both A and C. -/
theorem C9_clustering_witness :
    ∃ cl ∈ misconception_clusters mcScenarioRows (1 / 5) (3 / 10) 2,
      "A" ∈ cl.members ∧ "C" ∈ cl.members :=
  C9_clustering_symmetry_and_transitivity.2 mcScenarioRows (1 / 5) (3 / 10) 2
    "A" "B" "C" (by decide) (by decide) (by decide)
    (Or.inl (by decide)) (Or.inl (by decide))
